import Mathlib

/-!
Verification development for the agent decision pipeline.

This file gives a shallow embedding, in Lean 4, of the components of the
`agent` package that the checked properties talk about:

* `agent/runtime/retry.py` — backoff delay and retryability classification;
* `agent/llm/token_budget.py` — the token budget planner;
* `agent/security/provenance.py` and `agent/skills/disclosure.py` — the
  provenance containment check and the stage-2 disclosure loop;
* `agent/llm/decoder.py` — the decision decoder / repair engine;
* `agent/runtime/orchestrator.py` — the self-handoff loop breaker and the
  control-flow skeleton of the decision loop.

Python dictionaries are modelled as association lists with first-key-wins
lookup and Python's update-in-place / append-if-new assignment semantics.
Python's unbounded integers are `Int` (or `Nat` where the source value is a
length or count and hence non-negative), and floating point delays are
modelled over `ℚ`.  In-place mutation of nested dictionaries (the decoder
mutates action-step parameter dictionaries) is made explicit by returning
the updated dictionary next to the function result.
-/

namespace Agent

/-! ## Association lists with Python dict semantics -/

/-- Lookup of the value stored under a key, first occurrence wins.  Models
Python `d[k]` / `d.get(k)` on dictionaries (which hold each key once). -/
def alGet {β : Type} : List (String × β) → String → Option β
  | [], _ => none
  | (k', v) :: rest, k => if k' = k then some v else alGet rest k

/-- Key membership test, models Python `k in d`. -/
def alHas {β : Type} (d : List (String × β)) (k : String) : Bool :=
  (alGet d k).isSome

/-- Assignment `d[k] = v` with Python dict semantics: an existing key keeps
its position and gets the new value, a new key is appended at the end. -/
def alSet {β : Type} : List (String × β) → String → β → List (String × β)
  | [], k, v => [(k, v)]
  | (k', v') :: rest, k, v =>
    if k' = k then (k', v) :: rest else (k', v') :: alSet rest k v

/-! ## String helpers shared by the embedded components

Python's string primitives (`strip`, `lower`, `in`, `split`) are embedded
as structural recursions over the character list of the string, so that all
of them evaluate inside the kernel on concrete inputs. -/

/-- Python `needle in hay` on lists of characters. -/
def listHasInfix (needle : List Char) : List Char → Bool
  | [] => needle.isPrefixOf []
  | c :: rest => needle.isPrefixOf (c :: rest) || listHasInfix needle rest

/-- Python substring containment `needle in hay`. -/
def strHasSub (hay needle : String) : Bool :=
  listHasInfix needle.data hay.data

/-- The whitespace set of Python `str.strip()` (ASCII fragment). -/
def isPySpace (c : Char) : Bool :=
  c = ' ' ∨ c = '\t' ∨ c = '\n' ∨ c = '\r' ∨ c = '\x0b' ∨ c = '\x0c'

/-- Python `s.strip()`. -/
def pyStrip (s : String) : String :=
  ⟨((s.data.dropWhile isPySpace).reverse.dropWhile isPySpace).reverse⟩

/-- Lower-casing of one character (`str.lower`, ASCII fragment; the tokens
the decoder compares are ASCII). -/
def asciiLower (c : Char) : Char :=
  if 'A' ≤ c ∧ c ≤ 'Z' then Char.ofNat (c.toNat + 32) else c

/-- Python `s.lower()` (ASCII fragment). -/
def pyLower (s : String) : String :=
  ⟨s.data.map asciiLower⟩

/-- Python `value.strip().lower()` on a string, as used by
`_normalize_token` in `agent/llm/decoder.py` for string inputs. -/
def normalizeTokenStr (s : String) : String :=
  pyLower (pyStrip s)

/-- Python `_normalize_token` on an optional string (`None` becomes `""`). -/
def normalizeTokenOpt : Option String → String
  | none => ""
  | some s => normalizeTokenStr s

/-- Splitting on a separator character, Python `s.split(sep)` for a
one-character separator. -/
def splitOnCharAux (sep : Char) : List Char → List Char → List String
  | [], acc => [⟨acc.reverse⟩]
  | c :: rest, acc =>
    if c = sep then ⟨acc.reverse⟩ :: splitOnCharAux sep rest []
    else splitOnCharAux sep rest (c :: acc)

/-- Path-component split on `/`. -/
def splitSlash (s : String) : List String :=
  splitOnCharAux '/' s.data []

/-- Whether a path string is absolute (leading `/`). -/
def startsWithSlash (s : String) : Bool :=
  match s.data with
  | c :: _ => c = '/'
  | [] => false

/-- UTF-8 byte length of a string (`len(text.encode("utf-8"))`). -/
def utf8Len (s : String) : Nat :=
  s.data.foldl (fun n c => n + c.utf8Size) 0

/-! ## Retry / backoff policy (`agent/runtime/retry.py`) -/

/-- HTTP status codes that are transient and safe to retry
(`_RETRYABLE_STATUS_CODES`). -/
def retryableStatusCodes : List Int := [429, 500, 502, 503, 529]

/-- Backoff delay for an attempt (`compute_backoff_delay`).  The call to
`random.uniform(0.0, base_delay)` is an external source of randomness, so the
drawn jitter is passed explicitly; callers constrain it to
`0 ≤ jitter ≤ base_delay`.  Arithmetic is over `ℚ` in place of Python floats. -/
def compute_backoff_delay (attempt : Nat) (base_delay max_delay jitter : ℚ) : ℚ :=
  let exponential := base_delay * 2 ^ (attempt - 1)
  min (exponential + jitter) max_delay

/-- A provider exception as the classifier sees it: an optional integer
`status_code` attribute (absent or non-`int` gives `none`) and the exception
type's name. -/
structure ProviderError where
  status_code : Option Int
  type_name : String

/-- Classifier `is_retryable_error`: retry on a transient status code, or on
a timeout/connection/network class name when no integer status is present. -/
def is_retryable_error (exc : ProviderError) : Bool :=
  match exc.status_code with
  | some code => decide (code ∈ retryableStatusCodes)
  | none =>
    let excName := pyLower exc.type_name
    strHasSub excName "timeout" || strHasSub excName "connection" ||
      strHasSub excName "network"

/-! ## Token budget planner (`agent/llm/token_budget.py`) -/

/-- Token estimate `(len(text) + 3) // 4` (`estimate_tokens`). -/
def estimate_tokens (text : String) : Nat :=
  (text.length + 3) / 4

/-- The `TokenBudget` record of `agent/types.py`. -/
structure TokenBudget where
  max_context_tokens : Int
  response_headroom_tokens : Int
  allocated_prompt_tokens : Int
  allocated_disclosure_tokens : Int
deriving Repr, DecidableEq

/-- The budget planner `compute_budget`.  `max(... , 0)` and `// 2` are the
Python operations; both divisions act on non-negative operands so `Int`
truncated division coincides with Python floor division. -/
def compute_budget (max_context_tokens response_headroom_tokens : Int)
    (disclosed_text : String) : TokenBudget :=
  let available := max (max_context_tokens - response_headroom_tokens) 0
  let disclosed_tokens : Int := (estimate_tokens disclosed_text : Int)
  let disclosed_tokens := min disclosed_tokens (max (available / 2) 0)
  { max_context_tokens := max_context_tokens
    response_headroom_tokens := response_headroom_tokens
    allocated_prompt_tokens := available
    allocated_disclosure_tokens := disclosed_tokens }

/-! ## JSON-like Python values

The decoder and orchestrator manipulate parsed JSON payloads: Python values
built from `None`, booleans, integers, strings, lists and dictionaries.
A dictionary is an association list (unique keys, insertion order). -/

inductive JValue where
  | null
  | bool (b : Bool)
  | num (n : Int)
  | str (s : String)
  | arr (elems : List JValue)
  | obj (fields : List (String × JValue))

/-- A Python dictionary with string keys. -/
abbrev Dict := List (String × JValue)

/-- Python truthiness of a value (`bool(v)`). -/
def truthy : JValue → Bool
  | .null => false
  | .bool b => b
  | .num n => decide (n ≠ 0)
  | .str s => decide (s ≠ "")
  | .arr xs => !xs.isEmpty
  | .obj fs => !fs.isEmpty

mutual

/-- Python `repr` of a value, restricted to the constructors of `JValue`.
String escaping inside `repr` of nested strings is not reproduced (no
checked property depends on the rendering of containers). -/
def pyRepr : JValue → String
  | .null => "None"
  | .bool true => "True"
  | .bool false => "False"
  | .num n => toString n
  | .str s => "'" ++ s ++ "'"
  | .arr xs => "[" ++ pyReprList xs ++ "]"
  | .obj fs => "\x7b" ++ pyReprFields fs ++ "\x7d"

/-- Comma-joined `repr`s of list elements. -/
def pyReprList : List JValue → String
  | [] => ""
  | [x] => pyRepr x
  | x :: rest => pyRepr x ++ ", " ++ pyReprList rest

/-- Comma-joined `repr`s of dictionary items. -/
def pyReprFields : List (String × JValue) → String
  | [] => ""
  | [(k, v)] => "'" ++ k ++ "': " ++ pyRepr v
  | (k, v) :: rest => "'" ++ k ++ "': " ++ pyRepr v ++ ", " ++ pyReprFields rest

end

/-- Python `str(v)`: the string itself for strings, `repr`-style rendering
otherwise (matching `str` on `None`, booleans, integers, lists, dicts). -/
def pyStr : JValue → String
  | .str s => s
  | v => pyRepr v

/-- Python `d.get(k)` with its `None` default. -/
def dGet (d : Dict) (k : String) : JValue :=
  (alGet d k).getD JValue.null

/-! ## Provenance containment (`agent/security/provenance.py`)

Filesystem paths are modelled as lists of components from the root; the
skill directory is given already resolved, as `pathlib` would return it. -/

/-- Resolution of path components against a starting directory: `""` and
`"."` components are skipped and `".."` pops the last component (staying at
the root when empty), as `Path.resolve` does in the absence of symlinks. -/
def resolveComponents (acc : List String) : List String → List String
  | [] => acc
  | c :: rest =>
    if c = "" ∨ c = "." then resolveComponents acc rest
    else if c = ".." then resolveComponents acc.dropLast rest
    else resolveComponents (acc ++ [c]) rest

/-- Resolution of `(skill_dir / rel).resolve()`: joining with an absolute
path replaces the base, as `pathlib` join does. -/
def resolveUnder (base : List String) (rel : String) : List String :=
  resolveComponents (if startsWithSlash rel then [] else base) (splitSlash rel)

/-- Containment check `is_within_directory`: `target.relative_to(base)`
succeeds exactly when `base` is a prefix of `target` (the base is already
resolved). -/
def is_within_directory (base target : List String) : Bool :=
  base.isPrefixOf target

/-- Out-of-tree filter `find_out_of_tree_paths`: requested relative paths
whose resolution escapes the skill directory, in request order. -/
def find_out_of_tree_paths (skill_dir : List String) (relative_paths : List String) :
    List String :=
  relative_paths.filter fun rel =>
    ¬ is_within_directory skill_dir (resolveUnder skill_dir rel)

/-! ## Disclosure engine stage 2 (`agent/skills/disclosure.py`) -/

/-- The `DisclosedContext` record. -/
structure DisclosedContext where
  stage : Nat
  snippets : List (String × String)
  total_bytes : Nat
  total_tokens : Nat

/-- The placeholder content stored for a provenance-blocked path. -/
def provenanceBlockedMsg : String := "Blocked by provenance validation"

/-- State of the stage-2 accumulation loop. -/
structure Stage2State where
  snippets : List (String × String)
  used_bytes : Nat
  used_tokens : Nat

/-- One iteration of the stage-2 loop body: look the file up (skipping
paths that do not name an existing regular file), then include it whole
unless doing so would push either cumulative total over its cap. -/
def stage2Step (fs : List String → Option String) (max_bytes max_tokens : Int)
    (skill_dir : List String) (st : Stage2State) (rel : String) : Stage2State :=
  match fs (resolveUnder skill_dir rel) with
  | none => st
  | some text =>
    let text_bytes := utf8Len text
    let text_tokens := estimate_tokens text
    if (st.used_bytes + text_bytes : Int) > max_bytes then st
    else if (st.used_tokens + text_tokens : Int) > max_tokens then st
    else
      { snippets := alSet st.snippets rel text
        used_bytes := st.used_bytes + text_bytes
        used_tokens := st.used_tokens + text_tokens }

/-- `DisclosureEngine.stage2`.  The filesystem is abstracted as a partial
map `fs` from resolved paths to the text contents of existing regular files
(`read_text` with `errors="replace"` always succeeds on such files). -/
def stage2 (fs : List String → Option String) (max_bytes max_tokens : Int)
    (skill_dir : List String) (requested_paths : List String) : DisclosedContext :=
  let invalid := find_out_of_tree_paths skill_dir requested_paths
  let safe_paths := requested_paths.filter fun p => ¬ p ∈ invalid
  let st := safe_paths.foldl (stage2Step fs max_bytes max_tokens skill_dir)
    ⟨[], 0, 0⟩
  let snippets := invalid.foldl
    (fun sn rel => alSet sn ("warning:" ++ rel) provenanceBlockedMsg) st.snippets
  { stage := 2
    snippets := snippets
    total_bytes := st.used_bytes
    total_tokens := st.used_tokens }

/-! ## Decision decoder / repair engine (`agent/llm/decoder.py`)

`decode_model_decision` accepts a parsed JSON object or free text; the text
branch (`normalize_provider_output`) merely parses the text into an object
and hands it to the same repair/validation pipeline, so the embedding takes
the parsed object.  The decoder mutates the parameter dictionaries of the
steps of the input payload in place; every function below therefore also
returns the payload as the caller observes it after the call. -/

/-- Python truthiness of an optional selected-skill string
(`None` and `""` are falsy). -/
def selectedTruthy : Option String → Bool
  | none => false
  | some s => decide (s ≠ "")

/-- Python `a or b` (first truthy operand, else the second). -/
def pyOrJ (a b : JValue) : JValue :=
  if truthy a then a else b

/-- Python `v is True`. -/
def isTrueJ : JValue → Bool
  | .bool true => true
  | _ => false

/-- The fixed global alias table `_BASE_ACTION_TYPE_ALIASES`. -/
def baseActionTypeAliases : List (String × String) :=
  [("execute_skill", "call_skill"), ("invoke_skill", "call_skill"),
   ("use_skill", "call_skill"), ("run", "run_command"),
   ("run_shell", "run_command"), ("execute_command", "run_command"),
   ("request_disclosure", "ask_user"), ("format_output", "finish"),
   ("summarize_output", "finish"), ("complete", "finish")]

/-- Inner loop of `_normalize_skill_aliases`: normalize the keys of one
skill's alias table, dropping entries with an empty side. -/
def normalizeAliasTable (aliases : List (String × String)) : List (String × String) :=
  aliases.foldl
    (fun acc kv =>
      let rawKey := normalizeTokenStr kv.1
      let canonicalKey := normalizeTokenStr kv.2
      if rawKey = "" ∨ canonicalKey = "" then acc else alSet acc rawKey canonicalKey)
    []

/-- `_normalize_skill_aliases` (a `None` table is the empty list). -/
def _normalize_skill_aliases (skill_action_aliases : List (String × List (String × String))) :
    List (String × List (String × String)) :=
  skill_action_aliases.foldl
    (fun acc skv =>
      let skillKey := normalizeTokenStr skv.1
      if skillKey = "" then acc
      else
        let normalizedAliases := normalizeAliasTable skv.2
        if normalizedAliases.isEmpty then acc else alSet acc skillKey normalizedAliases)
    []

/-- Inner loop of `_normalize_default_action_params`: normalize the action
names of one skill's default-parameter table. -/
def normalizeDefaultTable (action_map : List (String × Dict)) : List (String × Dict) :=
  action_map.foldl
    (fun acc akv =>
      let actionKey := normalizeTokenStr akv.1
      if actionKey = "" then acc else alSet acc actionKey akv.2)
    []

/-- `_normalize_default_action_params` (a `None` table is the empty list). -/
def _normalize_default_action_params
    (skill_default_action_params : List (String × List (String × Dict))) :
    List (String × List (String × Dict)) :=
  skill_default_action_params.foldl
    (fun acc skv =>
      let skillKey := normalizeTokenStr skv.1
      if skillKey = "" then acc
      else
        let normalizedMap := normalizeDefaultTable skv.2
        if normalizedMap.isEmpty then acc else alSet acc skillKey normalizedMap)
    []

/-- Scan of every skill's alias table, in table order, for a truthy alias of
the key (the second loop of `_resolve_action_type`). -/
def findAliasInAll : List (String × List (String × String)) → String → Option String
  | [], _ => none
  | (_, amap) :: rest, k =>
    match alGet amap k with
    | some al1 => if al1 ≠ "" then some al1 else findAliasInAll rest k
    | none => findAliasInAll rest k

/-- `_resolve_action_type`: skill-specific alias of the selected skill, then
any skill's alias, then the fixed global table, else the raw key itself. -/
def _resolve_action_type (raw_type : String) (selected_skill : Option String)
    (skill_aliases : List (String × List (String × String))) : String :=
  let rawKey := normalizeTokenStr raw_type
  if rawKey = "" then ""
  else
    let selectedSkillKey := normalizeTokenOpt selected_skill
    let fromSelected : Option String :=
      if selectedSkillKey ≠ "" then
        match alGet skill_aliases selectedSkillKey with
        | some amap =>
          match alGet amap rawKey with
          | some al1 => if al1 ≠ "" then some al1 else none
          | none => none
        | none => none
      else none
    match fromSelected with
    | some al1 => al1
    | none =>
      match findAliasInAll skill_aliases rawKey with
      | some al1 => al1
      | none => (alGet baseActionTypeAliases rawKey).getD rawKey

/-- Inner candidate-key scan of `_resolve_default_params` over one action
map (`action_map.get(action_key)`, first hit that `is not None`). -/
def findParamsIn (action_map : List (String × Dict)) : List String → Option Dict
  | [] => none
  | k :: rest =>
    match alGet action_map k with
    | some params => some params
    | none => findParamsIn action_map rest

/-- Scan over every skill's default table (second loop of
`_resolve_default_params`). -/
def findParamsAll : List (String × List (String × Dict)) → List String → Option Dict
  | [], _ => none
  | (_, amap) :: rest, keys =>
    match findParamsIn amap keys with
    | some d => some d
    | none => findParamsAll rest keys

/-- `_resolve_default_params`: the selected skill's table first, then any
skill's table, matching on the raw and the resolved action name. -/
def _resolve_default_params (raw_type normalized_type : String)
    (selected_skill : Option String)
    (skill_default_action_params : List (String × List (String × Dict))) : Option Dict :=
  let selectedSkillKey := normalizeTokenOpt selected_skill
  let candidateKeys := [normalizeTokenStr raw_type, normalizeTokenStr normalized_type]
  let fromSelected : Option Dict :=
    if selectedSkillKey ≠ "" then
      findParamsIn ((alGet skill_default_action_params selectedSkillKey).getD []) candidateKeys
    else none
  match fromSelected with
  | some d => some d
  | none => findParamsAll skill_default_action_params candidateKeys

/-- A normalized step as `_normalize_action_step` builds it: a dict with
keys `type`, `params` and `expected_output`. -/
structure NormStep where
  type : String
  params : Dict
  expected_output : JValue

/-- The raw type string of a step:
`(step.get("type") or step.get("action") or step.get("step_type") or
step.get("operation") or "")`, stringified and stripped. -/
def stepRawType (step : Dict) : String :=
  pyStrip (pyStr (pyOrJ (dGet step "type") (pyOrJ (dGet step "action")
    (pyOrJ (dGet step "step_type") (pyOrJ (dGet step "operation") (.str ""))))))

/-- The `params` sub-dictionary of a step and whether it was a dictionary in
the step itself (in which case in-place mutation is visible to the caller). -/
def paramsOfStep (step : Dict) : Bool × Dict :=
  match alGet step "params" with
  | some (.obj fs) => (true, fs)
  | _ => (false, [])

/-- The `skill_name` copy-down into `params`
(`if step.get("skill_name") and "skill_name" not in params`). -/
def applySkillName (v : JValue) (p : Dict) : Dict :=
  if truthy v && !alHas p "skill_name" then alSet p "skill_name" v else p

/-- Whether a step-level command value qualifies for copy-down
(`isinstance(value, str) and value.strip()`). -/
def isQualCmd : JValue → Bool
  | .str s => decide (pyStrip s ≠ "")
  | _ => false

/-- One iteration of the command copy-down loop. -/
def addCommand (v : JValue) (p : Dict) : Dict :=
  if isQualCmd v && !alHas p "command" then alSet p "command" v else p

/-- The command copy-down loop over the keys
`("command", "cmd", "shell_command")`, in order. -/
def applyCommands (step : Dict) (p : Dict) : Dict :=
  addCommand (dGet step "shell_command")
    (addCommand (dGet step "cmd") (addCommand (dGet step "command") p))

/-- Shape-based type inference when no type was given. -/
def inferStepType (step : Dict) (p : Dict) : String :=
  if alHas p "command" then "run_command"
  else if alHas p "skill_name" then "call_skill"
  else if isTrueJ (dGet step "finish") || isTrueJ (dGet step "done") then "finish"
  else ""

/-- `step.get("expected_output", step.get("output"))`. -/
def expectedOutputOf (step : Dict) : JValue :=
  match alGet step "expected_output" with
  | some v => v
  | none => dGet step "output"

/-- `dict.update`: fold the entries of `upd` into `base` in order. -/
def dictUpdate (base upd : Dict) : Dict :=
  upd.foldl (fun acc kv => alSet acc kv.1 kv.2) base

/-- The parameter pipeline of `_normalize_action_step`: copy a truthy
step-level `skill_name` down, then the first qualifying command key. -/
def normActionParams2 (step : Dict) (p0 : Dict) : Dict :=
  applyCommands step (applySkillName (dGet step "skill_name") p0)

/-- The branch of `_normalize_action_step` that builds the normalized step
from the resolved type: `call_skill` may write the selected skill into the
params (visible mutation), `run_command` merges per-skill defaults and is
demoted to `ask_user` when no command results, recognized passive types are
kept, everything else is demoted to `ask_user` with a diagnostic.  The
second component is the `params` dictionary as left behind in the step. -/
def normActionOut (selected_skill : Option String)
    (skill_default_action_params : List (String × List (String × Dict)))
    (raw_type nt : String) (params2 : Dict) (expv : JValue) : NormStep × Dict :=
  if nt = "call_skill" then
    if !truthy (dGet params2 "skill_name") && selectedTruthy selected_skill then
      let p3 := alSet params2 "skill_name" (.str ((selected_skill).getD ""))
      (NormStep.mk "call_skill" p3 expv, p3)
    else (NormStep.mk "call_skill" params2 expv, params2)
  else if nt = "run_command" then
    let default_params := _resolve_default_params raw_type nt selected_skill
      skill_default_action_params
    let merged :=
      match default_params with
      | some d => if d.isEmpty then params2 else dictUpdate d params2
      | none => params2
    if !truthy (dGet merged "command") then
      let label := if raw_type ≠ "" then raw_type else if nt ≠ "" then nt else "unknown"
      (NormStep.mk "ask_user" [("message", .str ("Non-executable action: " ++ label))] expv,
        params2)
    else (NormStep.mk "run_command" merged expv, params2)
  else if nt = "ask_user" ∨ nt = "finish" then
    (NormStep.mk nt params2 expv, params2)
  else
    let label := if raw_type ≠ "" then raw_type else "unknown"
    (NormStep.mk "ask_user" [("message", .str ("Unsupported action type: " ++ label))] expv,
      params2)

/-- The `params` dictionary of a step after both copy-down passes. -/
def stepParams2 (step : Dict) : Dict :=
  normActionParams2 step (paramsOfStep step).2

/-- The resolved-or-inferred action type of a step. -/
def stepNT (selected_skill : Option String)
    (skill_aliases : List (String × List (String × String))) (step : Dict) : String :=
  let normalized_type := _resolve_action_type (stepRawType step) selected_skill skill_aliases
  if normalized_type ≠ "" then normalized_type
  else inferStepType step (stepParams2 step)

/-- The normalized step of `_normalize_action_step` together with the
`params` dictionary it leaves behind. -/
def normStepOut (selected_skill : Option String)
    (skill_aliases : List (String × List (String × String)))
    (skill_default_action_params : List (String × List (String × Dict)))
    (step : Dict) : NormStep × Dict :=
  normActionOut selected_skill skill_default_action_params (stepRawType step)
    (stepNT selected_skill skill_aliases step) (stepParams2 step) (expectedOutputOf step)

/-- `_normalize_action_step`.  Returns the normalized step together with the
step dictionary as the caller observes it afterwards, since the function
writes into the step's own `params` dictionary (when that was a dictionary
in the step; otherwise the fresh dictionary is invisible to the caller). -/
def _normalize_action_step (selected_skill : Option String)
    (skill_aliases : List (String × List (String × String)))
    (skill_default_action_params : List (String × List (String × Dict)))
    (step : Dict) : NormStep × Dict :=
  let ob := normStepOut selected_skill skill_aliases skill_default_action_params step
  (ob.1,
    if (paramsOfStep step).1 then alSet step "params" (.obj ob.2) else step)

/-- The fields of the safe default action injected by `_repair_payload`:
`{"type": "finish", "params": {}, "expected_output": None}`. -/
def finishStepFields : Dict :=
  [("type", .str "finish"), ("params", .obj []), ("expected_output", .null)]

/-- The safe default action injected by `_repair_payload`. -/
def finishStepJ : JValue :=
  .obj finishStepFields

/-- A normalized step back as the dictionary `_normalize_action_step`
returns. -/
def stepToJ (s : NormStep) : JValue :=
  .obj [("type", .str s.type), ("params", .obj s.params), ("expected_output", s.expected_output)]

/-- Normalization of a planned-action list: non-dictionary entries are
filtered out of the result but stay (unchanged) in the caller's list, and
dictionary entries are replaced by their mutated forms in the caller's
list. -/
def normalizeSteps (f : Dict → NormStep × Dict) : List JValue → List NormStep × List JValue
  | [] => ([], [])
  | v :: rest =>
    let tail := normalizeSteps f rest
    match v with
    | .obj fs =>
      let r := f fs
      (r.1 :: tail.1, .obj r.2 :: tail.2)
    | other => (tail.1, other :: tail.2)

/-- One default-filling step of `_repair_payload`:
`if key not in repaired: repaired[key] = default`. -/
def condSetDefault (d : Dict) (k : String) (v : JValue) : Dict :=
  if alHas d k then d else alSet d k v

/-- The default-filling steps of `_repair_payload`: inject
`planned_actions`, `reasoning_summary` and `required_disclosure_paths`
when missing (operating on the shallow copy). -/
def repairAddDefaults (p : Dict) : Dict :=
  condSetDefault
    (condSetDefault (condSetDefault p "planned_actions" (.arr [finishStepJ]))
      "reasoning_summary" (.str "No reasoning supplied by model"))
    "required_disclosure_paths" (.arr [])

/-- The `selected_skill` normalization of `_repair_payload`: a non-`None`
value is stringified and stripped, an empty result becoming `None`. -/
def repairSelected (r3 : Dict) : Option String × Dict :=
  match dGet r3 "selected_skill" with
  | .null => (none, r3)
  | v =>
    let s := pyStrip (pyStr v)
    let sel := if s = "" then none else some s
    (sel, alSet r3 "selected_skill" (match sel with | some s' => .str s' | none => .null))

/-- `_repair_payload`.  Returns the repaired payload (built on a shallow
copy, so top-level keys of the input are untouched) together with the input
payload as the caller observes it afterwards (step `params` dictionaries
may have been written into). -/
def _repair_payload (payload : Dict)
    (skill_action_aliases : List (String × List (String × String)))
    (skill_default_action_params : List (String × List (String × Dict))) : Dict × Dict :=
  let normalizedSkillAliases := _normalize_skill_aliases skill_action_aliases
  let normalizedSkillDefaults := _normalize_default_action_params skill_default_action_params
  let sr := repairSelected (repairAddDefaults payload)
  match dGet sr.2 "planned_actions" with
  | .arr steps =>
    let nres := normalizeSteps
      (_normalize_action_step sr.1 normalizedSkillAliases normalizedSkillDefaults) steps
    let newActs := if nres.1.isEmpty then [finishStepJ] else nres.1.map stepToJ
    ( alSet sr.2 "planned_actions" (.arr newActs),
      if alHas payload "planned_actions" then alSet payload "planned_actions" (.arr nres.2)
      else payload )
  | _ => (sr.2, payload)

/-- The `ActionStep` record of `agent/types.py`; its `type` field is
constrained by validation to the `ActionType` literal. -/
structure ActionStep where
  type : String
  params : Dict
  expected_output : Option String

/-- The `ActionType` literal of `agent/types.py`, line 8. -/
def validActionTypes : List String := ["call_skill", "run_command", "ask_user", "finish"]

/-- The `ModelDecision` record of `agent/types.py`. -/
structure ModelDecision where
  selected_skill : Option String
  reasoning_summary : String
  required_disclosure_paths : List String
  planned_actions : List ActionStep

/-- Validation of one value against `str` (pydantic does not coerce
numbers or booleans to strings). -/
def validateStr : JValue → Option String
  | .str s => some s
  | _ => none

/-- Validation against `str | None`. -/
def validateOptStr : JValue → Option (Option String)
  | .null => some none
  | .str s => some (some s)
  | _ => none

/-- Validation of one planned action against the `ActionStep` schema:
`type` must be one of the four `ActionType` literals, `params` a dictionary
(defaulting to `{}`), `expected_output` a string or `None`. -/
def validateActionStep (v : JValue) : Option ActionStep :=
  match v with
  | .obj fs =>
    match alGet fs "type" with
    | some (.str t) =>
      if t ∈ validActionTypes then
        match
          (match alGet fs "params" with
           | none => some ([] : Dict)
           | some (.obj ps) => some ps
           | some _ => none) with
        | none => none
        | some ps =>
          match
            (match alGet fs "expected_output" with
             | none => some (none : Option String)
             | some w => validateOptStr w) with
          | none => none
          | some eo => some (ActionStep.mk t ps eo)
      else none
    | _ => none
  | _ => none

/-- Element-wise validation of a list, failing when any element fails. -/
def optionMapList {α β : Type} (f : α → Option β) : List α → Option (List β)
  | [] => some []
  | x :: rest =>
    match f x with
    | none => none
    | some y =>
      match optionMapList f rest with
      | none => none
      | some ys => some (y :: ys)

/-- Validation of the `selected_skill` field (`str | None`, default `None`). -/
def vSelected (p : Dict) : Option (Option String) :=
  match alGet p "selected_skill" with
  | none => some none
  | some v => validateOptStr v

/-- Validation of the required `reasoning_summary` field (`str`). -/
def vReasoning (p : Dict) : Option String :=
  match alGet p "reasoning_summary" with
  | some (.str rs) => some rs
  | _ => none

/-- Validation of `required_disclosure_paths` (`list[str]`, default `[]`). -/
def vPaths (p : Dict) : Option (List String) :=
  match alGet p "required_disclosure_paths" with
  | none => some []
  | some (.arr xs) => optionMapList validateStr xs
  | some _ => none

/-- Validation of `planned_actions` (`list[ActionStep]`, default `[]`). -/
def vActions (p : Dict) : Option (List ActionStep) :=
  match alGet p "planned_actions" with
  | none => some []
  | some (.arr xs) => optionMapList validateActionStep xs
  | some _ => none

/-- Validation of a repaired payload against the `ModelDecision` schema
(`ModelDecision.model_validate`); extra keys are ignored, absent optional
fields take their declared defaults. -/
def validateModelDecision (p : Dict) : Option ModelDecision :=
  match vSelected p, vReasoning p, vPaths p, vActions p with
  | some sel, some rs, some paths, some acts => some (ModelDecision.mk sel rs paths acts)
  | _, _, _, _ => none

/-- `decode_model_decision` on a parsed payload object.  The result carries
the decision together with the payload as the caller observes it after the
call; schema-validation failure raises `DecodeError`, modelled as `.error`. -/
def decode_model_decision (payload : Dict)
    (skill_action_aliases : List (String × List (String × String)))
    (skill_default_action_params : List (String × List (String × Dict))) :
    Except String (ModelDecision × Dict) :=
  let rp := _repair_payload payload skill_action_aliases skill_default_action_params
  match validateModelDecision rp.1 with
  | some d => .ok (d, rp.2)
  | none => .error "Unable to decode model decision"

/-! ## Orchestrator fragment (`agent/runtime/orchestrator.py`)

The embedding covers the parts of the turn scheduler the checked
properties are about: the self-handoff detector and recovery builder, the
action-execution semantics of `_execute_actions`, and the control-flow
skeleton of the decision loop of `Orchestrator.run` (source lines
1396–1824).  External collaborators are parameters: the command executor is
an oracle `exec` giving the exit code of each successive command
invocation, the skill registry is a lookup function, and `_normalize_command`
(whose result depends on `shutil.which("rg")`, an environment probe) is a
string-rewriting parameter.  Prompt building, event/transcript emission,
stage-2 disclosure merging and final-answer synthesis do not influence
which termination reason the loop reaches and are elided; the interrupt
flag is modelled as never set (no signal delivered). -/

/-- `make_finish_decision` of `agent/llm/decoder.py`. -/
def make_finish_decision (reason : String) : ModelDecision :=
  ⟨none, reason, [], [⟨"finish", [], none⟩]⟩

/-- Target-skill extraction inside the self-handoff check:
`str(action.params.get("skill_name", selected) or "").strip()`. -/
def selfHandoffTarget (selected : String) (params : Dict) : String :=
  let v := match alGet params "skill_name" with
    | some w => w
    | none => .str selected
  pyStrip (pyStr (pyOrJ v (.str "")))

/-- `Orchestrator._is_self_handoff_only`: a decision is a pure self-handoff
when it selects a (nonempty) skill and every planned action is `call_skill`
targeting that same skill. -/
def _is_self_handoff_only (selected_skill : Option String)
    (actions : List ActionStep) : Bool :=
  let selected := pyStrip (selected_skill.getD "")
  if selected = "" then false
  else if actions.isEmpty then false
  else actions.all fun action =>
    decide (action.type = "call_skill") &&
      decide (selfHandoffTarget selected action.params = selected)

/-- A loaded skill as the recovery builder sees it: its metadata's
`default_action_params` table (values kept loose to mirror the defensive
`isinstance` checks of the source). -/
structure Skill where
  default_action_params : List (String × JValue)

/-- The command-collection loop of `_build_self_handoff_recovery_actions`:
walk the default-parameter values, keep distinct stripped string commands,
and stop once two have been collected. -/
def collectRecoveryCommands : List JValue → List String → List String
  | [], _ => []
  | v :: rest, seen =>
    match v with
    | .obj ps =>
      match alGet ps "command" with
      | some (.str s) =>
        if pyStrip s = "" then collectRecoveryCommands rest seen
        else if pyStrip s ∈ seen then collectRecoveryCommands rest seen
        else if seen.length + 1 ≥ 2 then [pyStrip s]
        else pyStrip s :: collectRecoveryCommands rest (pyStrip s :: seen)
      | _ => collectRecoveryCommands rest seen
    | _ => collectRecoveryCommands rest seen

/-- The closing `finish` action of every recovery decision. -/
def recoveryFinishStep : ActionStep :=
  ActionStep.mk "finish"
    [("message", .str "Recovered from repeated self-handoff loop.")] none

/-- `Orchestrator._build_self_handoff_recovery_actions`: up to two
`run_command` actions from the target skill's default-parameter table
(normalized through `_normalize_command`), followed by a `finish` action. -/
def _build_self_handoff_recovery_actions (normalizeCommand : String → String)
    (skill : Option Skill) : List ActionStep :=
  let commands :=
    match skill with
    | none => []
    | some sk =>
      collectRecoveryCommands
        (sk.default_action_params.map (fun kv : String × JValue => kv.2)) []
  let commands := commands.map normalizeCommand
  (commands.enum.map fun ic : Nat × String =>
    ActionStep.mk "run_command" [("command", .str ic.2)]
      (some ("Recovery command " ++ toString (ic.1 + 1))))
  ++ [recoveryFinishStep]

/-- Status of one executed step (`StepExecutionResult.status`). -/
inductive StepStatus where
  | success
  | failed
  | skipped
deriving DecidableEq, Repr

/-- `Orchestrator._execute_actions` on a validated action list: statuses in
order, the `should_finish` flag, and the advanced executor-invocation
counter.  A failing or non-executable step short-circuits with `False`, as
in the source; `finish` always succeeds and raises the flag; `call_skill`
fails only on a missing/empty target; `ask_user` is recorded `skipped`.
The `mcp_call` branch of the source is unreachable here because validated
`ActionStep.type` values range over the four-member `ActionType` literal. -/
def executeActions (exec : Nat → Int) (retryOnce : Bool) :
    List ActionStep → Nat → Bool → List StepStatus × Bool × Nat
  | [], ctr, sf => ([], sf, ctr)
  | a :: rest, ctr, sf =>
    if a.type = "finish" then
      let t := executeActions exec retryOnce rest ctr true
      (.success :: t.1, t.2.1, t.2.2)
    else if a.type = "run_command" then
      let command := pyStrip (pyStr ((alGet a.params "command").getD (.str "")))
      if command = "" then ([.failed], false, ctr)
      else
        let e1 := exec ctr
        if e1 ≠ 0 ∧ retryOnce then
          let e2 := exec (ctr + 1)
          if e2 = 0 then
            let t := executeActions exec retryOnce rest (ctr + 2) sf
            (.success :: t.1, t.2.1, t.2.2)
          else ([.failed], false, ctr + 2)
        else if e1 = 0 then
          let t := executeActions exec retryOnce rest (ctr + 1) sf
          (.success :: t.1, t.2.1, t.2.2)
        else ([.failed], false, ctr + 1)
    else if a.type = "call_skill" then
      let target := pyStrip (pyStr ((alGet a.params "skill_name").getD (.str "")))
      if target = "" then ([.failed], false, ctr)
      else
        let t := executeActions exec retryOnce rest ctr sf
        (.success :: t.1, t.2.1, t.2.2)
    else
      let t := executeActions exec retryOnce rest ctr sf
      (.skipped :: t.1, t.2.1, t.2.2)

/-- Terminal reason of the decision loop. -/
inductive RunReason where
  | success
  | self_handoff_loop
  | step_execution_failed
  | max_turns_exceeded
deriving DecidableEq, Repr

/-- The decision loop of `Orchestrator.run` (source lines 1396–1824),
driven by the per-turn decoded decisions.  Returns the terminal reason and
the executed decision of each turn, in order.  Per turn: an empty decoded
action list is replaced by a finish decision; a pure self-handoff decoded
while `consecutive_self_handoff_turns ≥ 1` is replaced by the recovery
decision; actions are executed; the counter is bumped or reset on the
executed decision; `counter ≥ 2` fails the run as `self_handoff_loop`, an
executed `finish` ends it successfully, a failed step fails it, otherwise
the next turn runs.  Exhausted turns give `max_turns_exceeded`. -/
def runDecisionLoop (decisions : Nat → ModelDecision)
    (skillLookup : String → Option Skill) (normalizeCommand : String → String)
    (exec : Nat → Int) (retryOnce : Bool) :
    Nat → Nat → Nat → Nat → RunReason × List ModelDecision
  | _, 0, _, _ => (.max_turns_exceeded, [])
  | turn, fuel + 1, counter, ctr =>
    let d0 := decisions turn
    let d1 := if d0.planned_actions.isEmpty then
        make_finish_decision "No actions returned; ending run"
      else d0
    let decodedSH := _is_self_handoff_only d1.selected_skill d1.planned_actions
    let d2 := if decodedSH ∧ counter ≥ 1 then
        let target := match d1.selected_skill with
          | some s => if s ≠ "" then skillLookup s else none
          | none => none
        { d1 with
            planned_actions := _build_self_handoff_recovery_actions normalizeCommand target,
            required_disclosure_paths := [] }
      else d1
    let er := executeActions exec retryOnce d2.planned_actions ctr false
    let execSH := _is_self_handoff_only d2.selected_skill d2.planned_actions
    let counter' := if execSH then counter + 1 else 0
    if counter' ≥ 2 then (.self_handoff_loop, [d2])
    else if er.2.1 then (.success, [d2])
    else if er.1.any (· = .failed) then (.step_execution_failed, [d2])
    else
      let t := runDecisionLoop decisions skillLookup normalizeCommand exec retryOnce
        (turn + 1) fuel counter' er.2.2
      (t.1, d2 :: t.2)

/-- Entry point of the loop: turn 1, `max_turns` turns of fuel, both the
self-handoff counter and the executor-invocation counter at zero. -/
def runOrchestrator (decisions : Nat → ModelDecision)
    (skillLookup : String → Option Skill) (normalizeCommand : String → String)
    (exec : Nat → Int) (retryOnce : Bool) (max_turns : Nat) :
    RunReason × List ModelDecision :=
  runDecisionLoop decisions skillLookup normalizeCommand exec retryOnce 1 max_turns 0 0

/-! ## Concrete inputs used as evidence -/

/-- The `mcp_call` decision payload of `tests/test_mcp.py`
(`test_mcp_call_decoded_correctly`). -/
def mcpPayload : Dict :=
  [("reasoning_summary", .str "use mcp"),
   ("planned_actions", .arr
     [.obj [("type", .str "mcp_call"),
            ("params", .obj [("tool_name", .str "read_file"),
                             ("arguments", .obj [("path", .str "/tmp/x")])])]])]

/-- A payload with no `planned_actions` key whose selected skill has an
alias table remapping `finish`. -/
def finishAliasPayload : Dict :=
  [("reasoning_summary", .str "r"), ("selected_skill", .str "s")]

/-- An alias table mapping the raw action `finish` of skill `s` to
`ask_user`. -/
def finishAliasTables : List (String × List (String × String)) :=
  [("s", [("finish", "ask_user")])]

/-- A minimal valid payload with no `planned_actions` key and no tables. -/
def plainPayload : Dict :=
  [("reasoning_summary", .str "r")]

/-- A decoded decision that is a pure self-handoff to skill `x`. -/
def selfHandoffDecision : ModelDecision :=
  ModelDecision.mk (some "x") "loop" []
    [ActionStep.mk "call_skill" [("skill_name", .str "x")] none]

/-- A tiny filesystem for the stage-2 cap evidence: under the skill
directory, `a.txt` holds five bytes and `b.txt` two. -/
def capFs : List String → Option String :=
  fun p =>
    if p = ["skill", "a.txt"] then some "aaaaa"
    else if p = ["skill", "b.txt"] then some "hi"
    else none

/-! # Theorems

Each claim of the specification is settled by exactly one theorem below;
auxiliary lemmas carry no claim names. -/

theorem alGet_alSet_self {β : Type} (d : List (String × β)) (k : String) (v : β) :
    alGet (alSet d k v) k = some v := by
  induction d with
  | nil => simp [alSet, alGet]
  | cons hd tl ih =>
    by_cases h : hd.1 = k
    · simp [alSet, alGet, h]
    · simp [alSet, alGet, h, ih]

theorem alGet_alSet_ne {β : Type} (d : List (String × β)) (k k' : String) (v : β)
    (h : k ≠ k') : alGet (alSet d k v) k' = alGet d k' := by
  induction d with
  | nil => simp [alSet, alGet, h]
  | cons hd tl ih =>
    by_cases hk : hd.1 = k
    · simp [alSet, alGet, hk, h]
    · by_cases hk' : hd.1 = k'
      · have h' : ¬k' = k := fun e => h e.symm
        simp [alSet, alGet, hk, hk', h']
      · simp [alSet, alGet, hk, hk', ih]

theorem alHas_alSet_self {β : Type} (d : List (String × β)) (k : String) (v : β) :
    alHas (alSet d k v) k = true := by
  simp [alHas, alGet_alSet_self]

theorem alHas_alSet {β : Type} (d : List (String × β)) (k k' : String) (v : β) :
    alHas (alSet d k v) k' = (alHas d k' || decide (k = k')) := by
  by_cases h : k = k'
  · subst h; simp [alHas_alSet_self]
  · simp [alHas, alGet_alSet_ne d k k' v h, h]

theorem alSet_alSet_self {β : Type} (d : List (String × β)) (k : String) (v w : β) :
    alSet (alSet d k v) k w = alSet d k w := by
  induction d with
  | nil => simp [alSet]
  | cons hd tl ih =>
    by_cases h : hd.1 = k
    · simp [alSet, h]
    · simp [alSet, h, ih]

theorem alGet_of_alHas_eq_false {β : Type} (d : List (String × β)) (k : String)
    (h : alHas d k = false) : alGet d k = none := by
  cases hg : alGet d k with
  | none => rfl
  | some v => rw [alHas, hg] at h; simp at h

/-- If a value is stored in an association list then some entry holds it. -/
theorem alGet_mem {β : Type} (d : List (String × β)) (k : String) (v : β)
    (h : alGet d k = some v) : (k, v) ∈ d := by
  induction d with
  | nil => simp [alGet] at h
  | cons hd tl ih =>
    rw [alGet] at h
    by_cases hk : hd.1 = k
    · rw [if_pos hk] at h
      injection h with hv
      subst hv
      subst hk
      exact List.mem_cons_self hd tl
    · rw [if_neg hk] at h
      exact List.mem_cons_of_mem _ (ih h)

/-- C4: for every integer `max_context_tokens`, integer
`response_headroom_tokens` and string `disclosed_text`, `compute_budget`
returns a budget with `allocated_prompt_tokens = max(max − headroom, 0)`
and `allocated_disclosure_tokens ≤ allocated_prompt_tokens / 2`, so
disclosed content never gets more than half the available budget. -/
theorem C4_budget_bound (m r : Int) (text : String) :
    (compute_budget m r text).allocated_prompt_tokens = max (m - r) 0 ∧
    (compute_budget m r text).allocated_disclosure_tokens ≤
      (compute_budget m r text).allocated_prompt_tokens / 2 := by
  refine ⟨rfl, ?_⟩
  have h2 : (0 : Int) ≤ max (m - r) 0 / 2 :=
    Int.ediv_nonneg (le_max_right _ _) (by norm_num)
  show min ((estimate_tokens text : Int)) (max (max (m - r) 0 / 2) 0) ≤ max (m - r) 0 / 2
  rw [max_eq_left h2]
  exact min_le_right _ _

/-- C7: with both jitters drawn from `[0, base_delay]`, the backoff delay
of attempt `n + 1` is at least the delay of attempt `n ≥ 1` (the claim's
"up to the clamp" bound holds even through the clamp, since `min · max_delay`
is monotone). -/
theorem C7_backoff_monotone (n : Nat) (base maxd j1 j2 : ℚ)
    (hn : 1 ≤ n) (hb : 0 ≤ base) (hj1u : j1 ≤ base) (hj2l : 0 ≤ j2) :
    compute_backoff_delay n base maxd j1 ≤ compute_backoff_delay (n + 1) base maxd j2 := by
  unfold compute_backoff_delay
  apply min_le_min _ le_rfl
  have hexp : n + 1 - 1 = (n - 1) + 1 := by omega
  rw [hexp, pow_succ]
  have h1 : (1 : ℚ) ≤ 2 ^ (n - 1) := one_le_pow₀ (by norm_num)
  have hbase : base ≤ base * 2 ^ (n - 1) := le_mul_of_one_le_right hb h1
  nlinarith

/-- C7 witness: concrete instance at `n = 1`, `base = 1`, `max = 10`,
jitters `1` and `0`. -/
theorem C7_backoff_monotone_witness :
    (1 : ℕ) ≥ 1 ∧
    compute_backoff_delay 1 1 10 1 ≤ compute_backoff_delay 2 1 10 0 :=
  ⟨le_refl 1,
    C7_backoff_monotone 1 1 10 1 0 (by norm_num) (by norm_num) (by norm_num) (by norm_num)⟩

/-- C8: `is_retryable_error` holds exactly when the exception carries an
integer status code in `{429, 500, 502, 503, 529}`, or carries none and its
lower-cased type name contains `"timeout"`, `"connection"` or `"network"`;
every other exception is non-retryable. -/
theorem C8_retryable_iff (exc : ProviderError) :
    is_retryable_error exc = true ↔
      ((∃ c, exc.status_code = some c ∧ c ∈ retryableStatusCodes) ∨
       (exc.status_code = none ∧
         (strHasSub (pyLower exc.type_name) "timeout" = true ∨
          strHasSub (pyLower exc.type_name) "connection" = true ∨
          strHasSub (pyLower exc.type_name) "network" = true))) := by
  cases h : exc.status_code with
  | none => simp [is_retryable_error, h, Bool.or_eq_true, or_assoc]
  | some c => simp [is_retryable_error, h]

/-- C1: evidence of the divergence.  The repository's own tests
(`tests/test_mcp.py`), tool schema (`build_agent_decision_tool_schema`),
prompt rules and orchestrator executor all expect a planned action of type
`"mcp_call"` to decode as `mcp_call`, but the `ActionType` literal of
`agent/types.py` has only four members and the decoder demotes the step to
`ask_user` with a diagnostic message. -/
theorem C1_mcp_call_demoted_to_ask_user :
    (decode_model_decision mcpPayload [] []).toOption.map
        (fun x => x.1.planned_actions.map ActionStep.type) = some ["ask_user"] ∧
    (decode_model_decision mcpPayload [] []).toOption.map
        (fun x => x.1.planned_actions.map (fun a => alGet a.params "message")) =
      some [some (JValue.str "Unsupported action type: mcp_call")] := by
  constructor
  · rfl
  · rfl

theorem collectRecoveryCommands_length_le (vals : List JValue) :
    ∀ seen : List String, seen.length ≤ 1 →
      (collectRecoveryCommands vals seen).length ≤ 2 - seen.length := by
  induction vals with
  | nil => intro seen _; simp [collectRecoveryCommands]
  | cons v rest ih =>
    intro seen hseen
    cases v with
    | obj ps =>
      rw [collectRecoveryCommands]
      cases hc : alGet ps "command" with
      | none => exact ih seen hseen
      | some w =>
        cases w with
        | str s =>
          dsimp only
          by_cases h1 : pyStrip s = ""
          · simp only [h1, if_pos rfl]
            exact ih seen hseen
          · rw [if_neg h1]
            by_cases h2 : pyStrip s ∈ seen
            · rw [if_pos h2]; exact ih seen hseen
            · rw [if_neg h2]
              by_cases h3 : seen.length + 1 ≥ 2
              · rw [if_pos h3]; simp; omega
              · rw [if_neg h3]
                have hlen : seen.length = 0 := by omega
                have := ih (pyStrip s :: seen) (by simp [hlen])
                simp only [List.length_cons] at this ⊢
                omega
        | null => exact ih seen hseen
        | bool b => exact ih seen hseen
        | num n => exact ih seen hseen
        | arr xs => exact ih seen hseen
        | obj fs => exact ih seen hseen
    | null => exact ih seen hseen
    | bool b => exact ih seen hseen
    | num n => exact ih seen hseen
    | str s => exact ih seen hseen
    | arr xs => exact ih seen hseen

theorem getLast?_append_singleton {α : Type} (xs : List α) (a : α) :
    (xs ++ [a]).getLast? = some a := by
  induction xs with
  | nil => rfl
  | cons x rest ih =>
    rw [List.cons_append, List.getLast?_cons]
    simp [ih]

theorem dropLast_append_singleton {α : Type} (xs : List α) (a : α) :
    (xs ++ [a]).dropLast = xs := by
  simp

/-- C3 counterexample: for a target skill with no default command
parameters the claim demands at least one `run_command` action before
`finish`, but the code builds the single `finish` action (there are no
generic fallback commands), matching Scenario E of the spec. -/
theorem C3_no_defaults_recovery_is_finish_only :
    _build_self_handoff_recovery_actions id (some (Skill.mk [])) =
      [ActionStep.mk "finish"
        [("message", .str "Recovered from repeated self-handoff loop.")] none] := by
  rfl

/-- C3 amended: a recovery decision consists of at most two `run_command`
actions drawn from the target skill's default-parameter table followed by a
`finish` action; when the table supplies no commands (or there is no target
skill) the recovery decision is the single `finish` action. -/
theorem C3_recovery_structure (nc : String → String) (skill : Option Skill) :
    ((_build_self_handoff_recovery_actions nc skill).getLast? =
      some (ActionStep.mk "finish"
        [("message", .str "Recovered from repeated self-handoff loop.")] none)) ∧
    ((_build_self_handoff_recovery_actions nc skill).dropLast.all
      (fun a => decide (a.type = "run_command")) = true) ∧
    ((_build_self_handoff_recovery_actions nc skill).dropLast.length ≤ 2) ∧
    (∀ sk : Skill, sk.default_action_params = [] →
      _build_self_handoff_recovery_actions nc (some sk) =
        [ActionStep.mk "finish"
          [("message", .str "Recovered from repeated self-handoff loop.")] none]) ∧
    (_build_self_handoff_recovery_actions nc none =
      [ActionStep.mk "finish"
        [("message", .str "Recovered from repeated self-handoff loop.")] none]) := by
  unfold _build_self_handoff_recovery_actions
  refine ⟨getLast?_append_singleton _ _, ?_, ?_, ?_, rfl⟩
  · rw [dropLast_append_singleton, List.all_eq_true]
    intro a ha
    obtain ⟨ic, _, heq⟩ := List.mem_map.mp ha
    rw [← heq]
    rfl
  · rw [dropLast_append_singleton]
    have hle : ∀ sk : Skill,
        (collectRecoveryCommands
          (sk.default_action_params.map (fun kv : String × JValue => kv.2)) []).length ≤ 2 := by
      intro sk
      simpa using collectRecoveryCommands_length_le _ [] (by simp)
    cases skill with
    | none => simp
    | some sk => simpa using hle sk
  · intro sk hsk
    simp [hsk, collectRecoveryCommands, recoveryFinishStep]

/-- C3 witness for the amended statement: the hypothesis-bearing conjunct
applied to a concrete skill with an empty default-parameter table. -/
theorem C3_recovery_structure_witness :
    _build_self_handoff_recovery_actions id (some (Skill.mk [])) =
      [ActionStep.mk "finish"
        [("message", .str "Recovered from repeated self-handoff loop.")] none] :=
  (C3_recovery_structure id (some (Skill.mk []))).2.2.2.1 (Skill.mk []) rfl

theorem stage2_loop_lookup (fs : List String → Option String) (mb mt : Int)
    (dir : List String) (paths : List String) :
    ∀ (st : Stage2State) (k : String) (v : String),
      alGet (paths.foldl (stage2Step fs mb mt dir) st).snippets k = some v →
      alGet st.snippets k = some v ∨ (k ∈ paths ∧ fs (resolveUnder dir k) = some v) := by
  induction paths with
  | nil => intro st k v h; exact Or.inl h
  | cons rel rest ih =>
    intro st k v h
    rw [List.foldl_cons] at h
    rcases ih _ k v h with hbase | hrec
    · rw [stage2Step] at hbase
      cases hfs : fs (resolveUnder dir rel) with
      | none => rw [hfs] at hbase; exact Or.inl hbase
      | some text =>
        rw [hfs] at hbase
        dsimp only at hbase
        by_cases hcb : (st.used_bytes + utf8Len text : Int) > mb
        · rw [if_pos hcb] at hbase; exact Or.inl hbase
        · rw [if_neg hcb] at hbase
          by_cases hct : (st.used_tokens + estimate_tokens text : Int) > mt
          · rw [if_pos hct] at hbase; exact Or.inl hbase
          · rw [if_neg hct] at hbase
            by_cases hk : rel = k
            · subst hk
              rw [alGet_alSet_self] at hbase
              injection hbase with hv
              exact Or.inr ⟨List.mem_cons_self _ _, hv ▸ hfs⟩
            · rw [alGet_alSet_ne _ _ _ _ hk] at hbase
              exact Or.inl hbase
    · exact Or.inr ⟨List.mem_cons_of_mem _ hrec.1, hrec.2⟩

theorem stage2_loop_totals (fs : List String → Option String) (mb mt : Int)
    (dir : List String) (paths : List String) :
    ∀ st : Stage2State,
      (st.used_bytes : Int) ≤ mb → (st.used_tokens : Int) ≤ mt →
      ((paths.foldl (stage2Step fs mb mt dir) st).used_bytes : Int) ≤ mb ∧
      ((paths.foldl (stage2Step fs mb mt dir) st).used_tokens : Int) ≤ mt := by
  induction paths with
  | nil => intro st hb ht; exact ⟨hb, ht⟩
  | cons rel rest ih =>
    intro st hb ht
    rw [List.foldl_cons]
    rw [stage2Step]
    cases hfs : fs (resolveUnder dir rel) with
    | none => exact ih st hb ht
    | some text =>
      dsimp only
      by_cases hcb : (st.used_bytes + utf8Len text : Int) > mb
      · rw [if_pos hcb]; exact ih st hb ht
      · rw [if_neg hcb]
        by_cases hct : (st.used_tokens + estimate_tokens text : Int) > mt
        · rw [if_pos hct]; exact ih st hb ht
        · rw [if_neg hct]
          refine ih _ ?_ ?_
          · push_cast
            push_cast at hcb
            omega
          · push_cast
            push_cast at hct
            omega

theorem warnings_fold_preserve (invalid : List String) :
    ∀ (sn : List (String × String)) (k : String),
      alGet sn k = some provenanceBlockedMsg →
      alGet (invalid.foldl
        (fun sn rel => alSet sn ("warning:" ++ rel) provenanceBlockedMsg) sn) k =
        some provenanceBlockedMsg := by
  induction invalid with
  | nil => intro sn k h; exact h
  | cons rel rest ih =>
    intro sn k h
    rw [List.foldl_cons]
    by_cases hk : ("warning:" ++ rel) = k
    · subst hk
      exact ih _ _ (alGet_alSet_self _ _ _)
    · exact ih _ k (by rw [alGet_alSet_ne _ _ _ _ hk]; exact h)

theorem warnings_fold_mem (invalid : List String) :
    ∀ (sn : List (String × String)) (rel : String), rel ∈ invalid →
      alGet (invalid.foldl
        (fun sn rel => alSet sn ("warning:" ++ rel) provenanceBlockedMsg) sn)
        ("warning:" ++ rel) = some provenanceBlockedMsg := by
  induction invalid with
  | nil => intro sn rel h; cases h
  | cons a rest ih =>
    intro sn rel h
    rw [List.foldl_cons]
    rcases List.mem_cons.mp h with heq | hmem
    · subst heq
      exact warnings_fold_preserve rest _ _ (alGet_alSet_self _ _ _)
    · exact ih _ rel hmem

theorem warnings_fold_lookup (invalid : List String) :
    ∀ (sn : List (String × String)) (k : String) (v : String),
      alGet (invalid.foldl
        (fun sn rel => alSet sn ("warning:" ++ rel) provenanceBlockedMsg) sn) k = some v →
      v = provenanceBlockedMsg ∨ alGet sn k = some v := by
  induction invalid with
  | nil => intro sn k v h; exact Or.inr h
  | cons rel rest ih =>
    intro sn k v h
    rw [List.foldl_cons] at h
    rcases ih _ k v h with hmsg | hbase
    · exact Or.inl hmsg
    · by_cases hk : ("warning:" ++ rel) = k
      · subst hk
        rw [alGet_alSet_self] at hbase
        injection hbase with hv
        exact Or.inl hv.symm
      · rw [alGet_alSet_ne _ _ _ _ hk] at hbase
        exact Or.inr hbase

/-- Membership in the safe-path list of `stage2` forces containment. -/
theorem safe_paths_within (dir : List String) (reqs : List String) (k : String)
    (hmem : k ∈ reqs.filter
      (fun p => ¬ p ∈ find_out_of_tree_paths dir reqs)) :
    k ∈ reqs ∧ is_within_directory dir (resolveUnder dir k) = true := by
  rw [List.mem_filter] at hmem
  obtain ⟨hreq, hnot⟩ := hmem
  refine ⟨hreq, ?_⟩
  by_contra hfalse
  have hwithin : is_within_directory dir (resolveUnder dir k) = false := by
    cases h : is_within_directory dir (resolveUnder dir k)
    · rfl
    · exact absurd h hfalse
  have : k ∈ find_out_of_tree_paths dir reqs := by
    rw [find_out_of_tree_paths, List.mem_filter]
    exact ⟨hreq, by simp [hwithin]⟩
  simp [this] at hnot

/-- C5: in every stage-2 call, each requested path whose resolution escapes
the skill directory surfaces only as a `warning:<path>` placeholder, and
every non-placeholder snippet value is the content of a file contained in
the skill directory — never that of an escaping file. -/
theorem C5_provenance_containment (fs : List String → Option String) (mb mt : Int)
    (dir : List String) (reqs : List String) :
    (∀ rel, rel ∈ reqs → is_within_directory dir (resolveUnder dir rel) = false →
      alGet (stage2 fs mb mt dir reqs).snippets ("warning:" ++ rel) =
        some provenanceBlockedMsg) ∧
    (∀ k v, alGet (stage2 fs mb mt dir reqs).snippets k = some v →
      v = provenanceBlockedMsg ∨
      (k ∈ reqs ∧ is_within_directory dir (resolveUnder dir k) = true ∧
        fs (resolveUnder dir k) = some v)) := by
  constructor
  · intro rel hreq hesc
    have hinv : rel ∈ find_out_of_tree_paths dir reqs := by
      rw [find_out_of_tree_paths, List.mem_filter]
      exact ⟨hreq, by simp [hesc]⟩
    exact warnings_fold_mem _ _ _ hinv
  · intro k v h
    rw [stage2] at h
    rcases warnings_fold_lookup _ _ _ _ h with hmsg | hcontent
    · exact Or.inl hmsg
    · rcases stage2_loop_lookup fs mb mt dir _ _ _ _ hcontent with hempty | ⟨hmem, hfs⟩
      · rw [alGet] at hempty
        cases hempty
      · have hw := safe_paths_within dir reqs k hmem
        exact Or.inr ⟨hw.1, hw.2, hfs⟩

/-- C5 witness: requesting `"../secrets.txt"` against the skill directory
`["skill"]` yields the warning placeholder, and the only snippet is that
placeholder. -/
theorem C5_provenance_containment_witness :
    ("../secrets.txt" ∈ ["../secrets.txt"] ∧
      is_within_directory ["skill"] (resolveUnder ["skill"] "../secrets.txt") = false) ∧
    alGet (stage2 (fun p => if p = ["secrets.txt"] then some "SECRET" else none)
        100 100 ["skill"] ["../secrets.txt"]).snippets "warning:../secrets.txt" =
      some provenanceBlockedMsg :=
  ⟨⟨List.mem_cons_self _ _, by decide⟩,
    (C5_provenance_containment
      (fun p => if p = ["secrets.txt"] then some "SECRET" else none)
      100 100 ["skill"] ["../secrets.txt"]).1 "../secrets.txt"
      (List.mem_cons_self _ _) (by decide)⟩

/-- C6 counterexample: with byte cap 4, the five-byte `a.txt` would exceed
the cap and is skipped, but the later two-byte `b.txt` of the same call is
still included — the claim demands that every remaining candidate after the
first cap hit be skipped. -/
theorem C6_later_file_included_counterexample :
    alGet (stage2 capFs 4 100 ["skill"] ["a.txt", "b.txt"]).snippets "b.txt" = some "hi" ∧
    alGet (stage2 capFs 4 100 ["skill"] ["a.txt", "b.txt"]).snippets "a.txt" = none ∧
    (stage2 capFs 4 100 ["skill"] ["a.txt", "b.txt"]).total_bytes = 2 := by
  exact ⟨rfl, rfl, rfl⟩

/-- C6 amended: in a single stage-2 call candidate files are included whole
(a snippet value is always the exact file content, never a truncation)
while cumulative bytes and estimated tokens stay within the caps; a file
that would exceed a cap is skipped (later candidates are still considered,
see the counterexample), and the returned totals never exceed the caps. -/
theorem C6_caps_respected (fs : List String → Option String) (mb mt : Int)
    (dir : List String) (reqs : List String) (hb : 0 ≤ mb) (ht : 0 ≤ mt) :
    ((stage2 fs mb mt dir reqs).total_bytes : Int) ≤ mb ∧
    ((stage2 fs mb mt dir reqs).total_tokens : Int) ≤ mt ∧
    (∀ k v, alGet (stage2 fs mb mt dir reqs).snippets k = some v →
      v = provenanceBlockedMsg ∨ fs (resolveUnder dir k) = some v) := by
  have htot := stage2_loop_totals fs mb mt dir
    (reqs.filter (fun p => ¬ p ∈ find_out_of_tree_paths dir reqs))
    ⟨[], 0, 0⟩ (by simpa using hb) (by simpa using ht)
  refine ⟨htot.1, htot.2, ?_⟩
  intro k v h
  rw [stage2] at h
  rcases warnings_fold_lookup _ _ _ _ h with hmsg | hcontent
  · exact Or.inl hmsg
  · rcases stage2_loop_lookup fs mb mt dir _ _ _ _ hcontent with hempty | ⟨_, hfs⟩
    · rw [alGet] at hempty
      cases hempty
    · exact Or.inr hfs

/-- C6 witness for the amended statement at concrete caps and files. -/
theorem C6_caps_respected_witness :
    ((stage2 capFs 4 100 ["skill"] ["a.txt", "b.txt"]).total_bytes : Int) ≤ 4 ∧
    ((stage2 capFs 4 100 ["skill"] ["a.txt", "b.txt"]).total_tokens : Int) ≤ 100 :=
  ⟨(C6_caps_respected capFs 4 100 ["skill"] ["a.txt", "b.txt"]
      (by norm_num) (by norm_num)).1,
   (C6_caps_respected capFs 4 100 ["skill"] ["a.txt", "b.txt"]
      (by norm_num) (by norm_num)).2.1⟩

theorem optionMapList_some_length {α β : Type} (f : α → Option β) :
    ∀ (xs : List α) (ys : List β), optionMapList f xs = some ys → ys.length = xs.length := by
  intro xs
  induction xs with
  | nil =>
    intro ys h
    rw [optionMapList] at h
    injection h with h
    rw [← h]
    rfl
  | cons x rest ih =>
    intro ys h
    rw [optionMapList] at h
    cases hf : f x with
    | none => rw [hf] at h; cases h
    | some y =>
      rw [hf] at h
      cases hr : optionMapList f rest with
      | none => rw [hr] at h; cases h
      | some zs =>
        rw [hr] at h
        injection h with h
        rw [← h]
        simp [ih zs hr]

theorem validateModelDecision_inv (p : Dict) (d : ModelDecision)
    (h : validateModelDecision p = some d) :
    vSelected p = some d.selected_skill ∧ vReasoning p = some d.reasoning_summary ∧
    vPaths p = some d.required_disclosure_paths ∧ vActions p = some d.planned_actions := by
  unfold validateModelDecision at h
  cases h1 : vSelected p <;> rw [h1] at h
  · simp at h
  · cases h2 : vReasoning p <;> rw [h2] at h
    · simp at h
    · cases h3 : vPaths p <;> rw [h3] at h
      · simp at h
      · cases h4 : vActions p <;> rw [h4] at h
        · simp at h
        · dsimp only at h
          injection h with hd
          subst hd
          exact ⟨rfl, rfl, rfl, rfl⟩

theorem alGet_condSetDefault_ne (d : Dict) (k k' : String) (v : JValue)
    (h : k ≠ k') : alGet (condSetDefault d k v) k' = alGet d k' := by
  unfold condSetDefault
  by_cases hc : alHas d k
  · simp [hc]
  · simp [hc, alGet_alSet_ne _ _ _ _ h]

theorem alGet_condSetDefault_self (d : Dict) (k : String) (v : JValue) :
    alGet (condSetDefault d k v) k = some ((alGet d k).getD v) := by
  unfold condSetDefault
  by_cases hc : alHas d k
  · rcases hg : alGet d k with _ | w
    · rw [alHas, hg] at hc; simp at hc
    · simp [hc, hg]
  · have hn : alGet d k = none := alGet_of_alHas_eq_false d k (by simpa using hc)
    simp [hc, hn, alGet_alSet_self]

theorem alGet_repairAddDefaults_planned (p : Dict) :
    alGet (repairAddDefaults p) "planned_actions" =
      some ((alGet p "planned_actions").getD (.arr [finishStepJ])) := by
  unfold repairAddDefaults
  rw [alGet_condSetDefault_ne _ _ _ _ (by decide),
    alGet_condSetDefault_ne _ _ _ _ (by decide),
    alGet_condSetDefault_self]

theorem alGet_repairSelected_ne (r : Dict) (k : String) (h : k ≠ "selected_skill") :
    alGet (repairSelected r).2 k = alGet r k := by
  unfold repairSelected
  have h' : ("selected_skill" : String) ≠ k := fun e => h e.symm
  cases hv : dGet r "selected_skill" <;>
    simp [alGet_alSet_ne _ _ _ _ h']

theorem repairSelected_planned (r : Dict) :
    alGet (repairSelected r).2 "planned_actions" = alGet r "planned_actions" :=
  alGet_repairSelected_ne r _ (by decide)

/-- Non-dictionary planned entries produce no normalized step. -/
theorem normalizeSteps_no_obj (f : Dict → NormStep × Dict) :
    ∀ xs : List JValue, (∀ x ∈ xs, ∀ fields, x ≠ .obj fields) →
      (normalizeSteps f xs).1 = [] := by
  intro xs
  induction xs with
  | nil => intro _; rfl
  | cons x rest ih =>
    intro h
    cases x with
    | obj fields => exact absurd rfl (h (JValue.obj fields) (List.mem_cons_self _ _) fields)
    | null => exact ih fun y hy => h y (List.mem_cons_of_mem _ hy)
    | bool b => exact ih fun y hy => h y (List.mem_cons_of_mem _ hy)
    | num n => exact ih fun y hy => h y (List.mem_cons_of_mem _ hy)
    | str s => exact ih fun y hy => h y (List.mem_cons_of_mem _ hy)
    | arr elems => exact ih fun y hy => h y (List.mem_cons_of_mem _ hy)

/-- The repaired payload always carries a `planned_actions` value that is
either a non-empty array or a non-array that the schema will reject. -/
theorem repair_fst_planned (p : Dict)
    (al : List (String × List (String × String)))
    (dft : List (String × List (String × Dict))) :
    (∃ acts : List JValue, acts ≠ [] ∧
      alGet (_repair_payload p al dft).1 "planned_actions" = some (.arr acts)) ∨
    vActions (_repair_payload p al dft).1 = none := by
  unfold _repair_payload
  dsimp only
  have hhas : ∃ w, alGet (repairSelected (repairAddDefaults p)).2 "planned_actions" = some w := by
    rw [repairSelected_planned, alGet_repairAddDefaults_planned]
    exact ⟨_, rfl⟩
  obtain ⟨w, hw⟩ := hhas
  have hdget : dGet (repairSelected (repairAddDefaults p)).2 "planned_actions" = w := by
    rw [dGet, hw]; rfl
  cases w with
  | arr steps =>
    rw [hdget]
    dsimp only
    left
    cases hn : (normalizeSteps (_normalize_action_step
        (repairSelected (repairAddDefaults p)).1
        (_normalize_skill_aliases al) (_normalize_default_action_params dft)) steps).1 with
    | nil =>
      refine ⟨[finishStepJ], by simp, ?_⟩
      simpa using alGet_alSet_self _ "planned_actions" (JValue.arr [finishStepJ])
    | cons a as =>
      refine ⟨stepToJ a :: as.map stepToJ, by simp, ?_⟩
      simpa using alGet_alSet_self _ "planned_actions" (JValue.arr (stepToJ a :: as.map stepToJ))
  | null =>
    rw [hdget]
    dsimp only
    right
    rw [vActions, hw]
  | bool b =>
    rw [hdget]
    dsimp only
    right
    rw [vActions, hw]
  | num n =>
    rw [hdget]
    dsimp only
    right
    rw [vActions, hw]
  | str s =>
    rw [hdget]
    dsimp only
    right
    rw [vActions, hw]
  | obj fields =>
    rw [hdget]
    dsimp only
    right
    rw [vActions, hw]

/-- With no alias tables, the raw type `finish` resolves to itself,
whatever skill is selected. -/
theorem resolve_finish_no_aliases (sel : Option String) :
    _resolve_action_type "finish" sel [] = "finish" := by
  unfold _resolve_action_type
  dsimp only
  rw [if_neg (show ¬normalizeTokenStr "finish" = "" by decide)]
  by_cases hsel : normalizeTokenOpt sel ≠ ""
  · rw [if_pos hsel]
    rfl
  · rw [if_neg hsel]
    rfl

/-- With no alias tables, normalizing the injected default `finish` step
yields the canonical finish step, whatever skill is selected and whatever
default-parameter tables are in force. -/
theorem normalize_finish_step (sel : Option String)
    (nd : List (String × List (String × Dict))) :
    (_normalize_action_step sel [] nd finishStepFields).1 = NormStep.mk "finish" [] .null := by
  have hnt : stepNT sel [] finishStepFields = "finish" := by
    unfold stepNT
    rw [show stepRawType finishStepFields = "finish" from rfl, resolve_finish_no_aliases]
    rfl
  show (normStepOut sel [] nd finishStepFields).1 = NormStep.mk "finish" [] .null
  unfold normStepOut
  rw [hnt]
  rfl

/-- Inversion of a successful decode: the repaired payload validates to the
returned decision and the returned payload is the post-mutation input. -/
theorem decode_ok_inv (p : Dict) (al : List (String × List (String × String)))
    (dft : List (String × List (String × Dict))) (d : ModelDecision) (q : Dict)
    (h : decode_model_decision p al dft = .ok (d, q)) :
    validateModelDecision (_repair_payload p al dft).1 = some d ∧
    (_repair_payload p al dft).2 = q := by
  unfold decode_model_decision at h
  dsimp only at h
  cases hv : validateModelDecision (_repair_payload p al dft).1 with
  | none => rw [hv] at h; cases h
  | some d0 =>
    rw [hv] at h
    dsimp only at h
    injection h with hpair
    rw [Prod.ext_iff] at hpair
    obtain ⟨h1, h2⟩ := hpair
    dsimp only at h1 h2
    exact ⟨congrArg some h1, h2⟩

/-- C10 counterexample: with an alias table that remaps the raw action
`finish` of the selected skill, a payload with no `planned_actions` key
decodes successfully to a single action of type `ask_user`, not `finish`
(the injected default is fed through the alias machinery). -/
theorem C10_finish_alias_counterexample :
    (decode_model_decision finishAliasPayload finishAliasTables []).toOption.map
      (fun x => x.1.planned_actions.map ActionStep.type) = some ["ask_user"] := by
  rfl

/-- C10 amended: every successful decode yields a non-empty
`planned_actions` list; and when no skill alias tables are supplied (so
`finish` is not remapped), a payload with no `planned_actions` key, an
empty `planned_actions` list, or a `planned_actions` list containing no
dictionary entries decodes to the single canonical `finish` action. -/
theorem C10_planned_actions_nonempty :
    (∀ (p : Dict) (al : List (String × List (String × String)))
       (dft : List (String × List (String × Dict))) (d : ModelDecision) (q : Dict),
      decode_model_decision p al dft = .ok (d, q) → d.planned_actions ≠ []) ∧
    (∀ (p : Dict) (dft : List (String × List (String × Dict)))
       (d : ModelDecision) (q : Dict),
      decode_model_decision p [] dft = .ok (d, q) →
      (alGet p "planned_actions" = none ∨
       alGet p "planned_actions" = some (.arr []) ∨
       (∃ xs, alGet p "planned_actions" = some (.arr xs) ∧
         ∀ x ∈ xs, ∀ fields, x ≠ JValue.obj fields)) →
      d.planned_actions = [ActionStep.mk "finish" [] none]) := by
  constructor
  · intro p al dft d q h
    obtain ⟨hval, _⟩ := decode_ok_inv p al dft d q h
    have hact := (validateModelDecision_inv _ _ hval).2.2.2
    rcases repair_fst_planned p al dft with ⟨acts, hne, hpa⟩ | hnone
    · rw [vActions, hpa] at hact
      have hlen := optionMapList_some_length validateActionStep acts _ hact
      intro hnil
      rw [hnil] at hlen
      simp at hlen
      exact hne (List.eq_nil_of_length_eq_zero hlen.symm)
    · rw [hnone] at hact
      cases hact
  · intro p dft d q h hshape
    obtain ⟨hval, _⟩ := decode_ok_inv p [] dft d q h
    have hact := (validateModelDecision_inv _ _ hval).2.2.2
    have hsteps : (∃ steps0 : List JValue,
        dGet (repairSelected (repairAddDefaults p)).2 "planned_actions" = .arr steps0 ∧
        (normalizeSteps (_normalize_action_step (repairSelected (repairAddDefaults p)).1
          (_normalize_skill_aliases []) (_normalize_default_action_params dft)) steps0).1 =
          ([] : List NormStep)) ∨
        (∃ steps0 : List JValue,
        dGet (repairSelected (repairAddDefaults p)).2 "planned_actions" = .arr steps0 ∧
        (normalizeSteps (_normalize_action_step (repairSelected (repairAddDefaults p)).1
          (_normalize_skill_aliases []) (_normalize_default_action_params dft)) steps0).1 =
          [NormStep.mk "finish" [] .null]) := by
      have hsel : alGet (repairSelected (repairAddDefaults p)).2 "planned_actions" =
          some ((alGet p "planned_actions").getD (.arr [finishStepJ])) := by
        rw [repairSelected_planned, alGet_repairAddDefaults_planned]
      rcases hshape with hnone | hempty | ⟨xs, hxs, hnoobj⟩
      · right
        refine ⟨[finishStepJ], ?_, ?_⟩
        · rw [dGet, hsel, hnone]; rfl
        · rw [show (_normalize_skill_aliases []) =
              ([] : List (String × List (String × String))) from rfl]
          show [(_normalize_action_step (repairSelected (repairAddDefaults p)).1 []
            (_normalize_default_action_params dft) finishStepFields).1] =
            [NormStep.mk "finish" [] .null]
          rw [normalize_finish_step]
      · left
        refine ⟨[], ?_, rfl⟩
        rw [dGet, hsel, hempty]; rfl
      · left
        refine ⟨xs, ?_, normalizeSteps_no_obj _ xs hnoobj⟩
        rw [dGet, hsel, hxs]; rfl
    have hfinal : vActions (_repair_payload p [] dft).1 =
        some [ActionStep.mk "finish" [] none] := by
      unfold _repair_payload
      dsimp only
      rcases hsteps with ⟨steps0, hdg, houts⟩ | ⟨steps0, hdg, houts⟩
      · rw [hdg]
        dsimp only
        rw [houts]
        rw [show (if (List.isEmpty ([] : List NormStep)) then [finishStepJ]
          else List.map stepToJ ([] : List NormStep)) = [finishStepJ] from rfl]
        rw [vActions, alGet_alSet_self]
        rfl
      · rw [hdg]
        dsimp only
        rw [houts]
        rw [show (if (List.isEmpty [NormStep.mk "finish" [] .null]) then [finishStepJ]
          else List.map stepToJ [NormStep.mk "finish" [] .null]) = [finishStepJ] from rfl]
        rw [vActions, alGet_alSet_self]
        rfl
    rw [hfinal] at hact
    injection hact with hact
    exact hact.symm

/-- C10 witness: the minimal payload with no `planned_actions` key decodes
to exactly the canonical finish action, discharging both parts. -/
theorem C10_planned_actions_nonempty_witness :
    decode_model_decision plainPayload [] [] =
      .ok (ModelDecision.mk none "r" [] [ActionStep.mk "finish" [] none], plainPayload) ∧
    (ModelDecision.mk none "r" [] [ActionStep.mk "finish" [] none]).planned_actions ≠ [] ∧
    (ModelDecision.mk none "r" [] [ActionStep.mk "finish" [] none]).planned_actions =
      [ActionStep.mk "finish" [] none] := by
  have h : decode_model_decision plainPayload [] [] =
      .ok (ModelDecision.mk none "r" [] [ActionStep.mk "finish" [] none], plainPayload) := rfl
  exact ⟨h,
    C10_planned_actions_nonempty.1 plainPayload [] [] _ _ h,
    C10_planned_actions_nonempty.2 plainPayload [] _ _ h (Or.inl rfl)⟩

/-- A decision that selects skill `X` (already stripped, nonempty) and
plans only `call_skill` actions whose `skill_name` parameter is `X` is
detected as a pure self-handoff. -/
theorem pure_self_handoff_detected (X : String) (acts : List ActionStep)
    (hXt : pyStrip X = X) (hXne : X ≠ "") (hne : acts ≠ [])
    (hall : ∀ a ∈ acts, a.type = "call_skill" ∧
      alGet a.params "skill_name" = some (JValue.str X)) :
    _is_self_handoff_only (some X) acts = true := by
  unfold _is_self_handoff_only
  dsimp only
  rw [show (some X).getD "" = X from rfl, hXt, if_neg hXne]
  have hsz : acts.isEmpty = false := by
    cases acts with
    | nil => exact absurd rfl hne
    | cons a rest => rfl
  rw [hsz]
  rw [if_neg (by simp)]
  rw [List.all_eq_true]
  intro a ha
  obtain ⟨hty, hsn⟩ := hall a ha
  rw [hty]
  unfold selfHandoffTarget
  rw [hsn]
  dsimp only
  rw [show pyOrJ (JValue.str X) (JValue.str "") = JValue.str X from by
    unfold pyOrJ truthy
    rw [if_pos (by simpa using hXne)]]
  rw [show pyStr (JValue.str X) = X from rfl, hXt]
  simp

/-- A recovery action list (which ends in the `finish` action) is never a
pure self-handoff. -/
theorem recovery_not_self_handoff (sel : Option String) (xs : List ActionStep) :
    _is_self_handoff_only sel (xs ++ [recoveryFinishStep]) = false := by
  unfold _is_self_handoff_only
  dsimp only
  by_cases hsel : pyStrip (sel.getD "") = ""
  · rw [if_pos hsel]
  · rw [if_neg hsel]
    have hsz : (xs ++ [recoveryFinishStep]).isEmpty = false := by
      cases xs <;> rfl
    rw [hsz]
    rw [if_neg (by simp)]
    have : recoveryFinishStep ∈ xs ++ [recoveryFinishStep] := by simp
    rw [List.all_eq_false]
    exact ⟨recoveryFinishStep, this, by simp [recoveryFinishStep]⟩

/-- Executing a list of `call_skill` actions that all carry skill name `X`
succeeds step by step, leaves the finish flag untouched and consumes no
executor invocation. -/
theorem exec_call_skill_all (exec : Nat → Int) (r : Bool) (X : String)
    (hXt : pyStrip X = X) (hXne : X ≠ "") :
    ∀ (acts : List ActionStep) (ctr : Nat) (sf : Bool),
      (∀ a ∈ acts, a.type = "call_skill" ∧
        alGet a.params "skill_name" = some (JValue.str X)) →
      executeActions exec r acts ctr sf =
        (acts.map (fun _ => StepStatus.success), sf, ctr) := by
  intro acts
  induction acts with
  | nil => intro ctr sf _; rfl
  | cons a rest ih =>
    intro ctr sf h
    obtain ⟨hty, hsn⟩ := h a (List.mem_cons_self _ _)
    have hrest := ih ctr sf (fun y hy => h y (List.mem_cons_of_mem _ hy))
    rw [executeActions, hty]
    rw [if_neg (show ¬("call_skill" : String) = "finish" by decide)]
    rw [if_neg (show ¬("call_skill" : String) = "run_command" by decide)]
    rw [if_pos (rfl : ("call_skill" : String) = "call_skill")]
    dsimp only
    rw [hsn]
    rw [show pyStrip (pyStr ((some (JValue.str X)).getD (.str ""))) = pyStrip X from rfl,
      hXt, if_neg hXne, hrest]
    rfl

/-- Executing any list of `run_command` actions followed by the recovery
`finish` action either reaches the finish flag or records a failed step,
whatever the commands, the exit codes and the retry policy. -/
theorem exec_runs_then_finish (exec : Nat → Int) (r : Bool) :
    ∀ (acts : List ActionStep) (ctr : Nat),
      (∀ a ∈ acts, a.type = "run_command") →
      ((executeActions exec r (acts ++ [recoveryFinishStep]) ctr false).2.1 = true ∨
       (executeActions exec r (acts ++ [recoveryFinishStep]) ctr false).1.any
         (· = StepStatus.failed) = true) := by
  intro acts
  induction acts with
  | nil =>
    intro ctr _
    left
    rfl
  | cons a rest ih =>
    intro ctr h
    have hty := h a (List.mem_cons_self _ _)
    have hrest := fun ctr' => ih ctr' (fun y hy => h y (List.mem_cons_of_mem _ hy))
    rw [List.cons_append, executeActions, hty]
    rw [if_neg (show ¬("run_command" : String) = "finish" by decide)]
    rw [if_pos (rfl : ("run_command" : String) = "run_command")]
    dsimp only
    by_cases hcmd : pyStrip (pyStr ((alGet a.params "command").getD (.str ""))) = ""
    · rw [if_pos hcmd]
      right
      rfl
    · rw [if_neg hcmd]
      by_cases hretry : exec ctr ≠ 0 ∧ r = true
      · rw [if_pos hretry]
        by_cases he2 : exec (ctr + 1) = 0
        · rw [if_pos he2]
          rcases hrest (ctr + 2) with hfin | hfail
          · left
            simpa using hfin
          · right
            simp only [List.any_cons, Bool.or_eq_true]
            right
            simpa using hfail
        · rw [if_neg he2]
          right
          rfl
      · rw [if_neg hretry]
        by_cases he1 : exec ctr = 0
        · rw [if_pos he1]
          rcases hrest (ctr + 1) with hfin | hfail
          · left
            simpa using hfin
          · right
            simp only [List.any_cons, Bool.or_eq_true]
            right
            simpa using hfail
        · rw [if_neg he1]
          right
          rfl

/-- One-turn unfolding of the decision loop. -/
theorem runDecisionLoop_succ (decs : Nat → ModelDecision) (sl : String → Option Skill)
    (nc : String → String) (ex : Nat → Int) (r : Bool) (turn fuel counter ctr : Nat) :
    runDecisionLoop decs sl nc ex r turn (fuel + 1) counter ctr =
      (let d0 := decs turn
       let d1 := if d0.planned_actions.isEmpty then
           make_finish_decision "No actions returned; ending run"
         else d0
       let decodedSH := _is_self_handoff_only d1.selected_skill d1.planned_actions
       let d2 := if decodedSH ∧ counter ≥ 1 then
           { d1 with
               planned_actions := _build_self_handoff_recovery_actions nc
                 (match d1.selected_skill with
                  | some s => if s ≠ "" then sl s else none
                  | none => none),
               required_disclosure_paths := [] }
         else d1
       let er := executeActions ex r d2.planned_actions ctr false
       let execSH := _is_self_handoff_only d2.selected_skill d2.planned_actions
       let counter' := if execSH then counter + 1 else 0
       if counter' ≥ 2 then (RunReason.self_handoff_loop, [d2])
       else if er.2.1 then (RunReason.success, [d2])
       else if er.1.any (· = .failed) then (RunReason.step_execution_failed, [d2])
       else
         let t := runDecisionLoop decs sl nc ex r (turn + 1) fuel counter' er.2.2
         (t.1, d2 :: t.2)) := rfl

/-- Every recovery list splits into `run_command` actions and the final
`finish` action. -/
theorem recovery_split (nc : String → String) (skill : Option Skill) :
    ∃ runs : List ActionStep,
      _build_self_handoff_recovery_actions nc skill = runs ++ [recoveryFinishStep] ∧
      ∀ a ∈ runs, a.type = "run_command" := by
  unfold _build_self_handoff_recovery_actions
  refine ⟨_, rfl, ?_⟩
  intro a ha
  obtain ⟨ic, _, heq⟩ := List.mem_map.mp ha
  rw [← heq]

theorem map_success_any_failed (l : List ActionStep) :
    (l.map (fun _ => StepStatus.success)).any (· = StepStatus.failed) = false := by
  induction l with
  | nil => rfl
  | cons a rest ih => simp [ih]

/-- C2: if every turn's decoded decision is a pure self-handoff to the same
skill `X` (each planned action a `call_skill` naming `X`), then for any
`max_turns ≥ 2` the run executes exactly two turns: the second turn's
executed decision is the substituted recovery decision, which contains a
non-`call_skill` action, and the run terminates there (successfully, or
with a failed recovery command) rather than exhausting `max_turns`. -/
theorem C2_self_handoff_recovery_terminates
    (decisions : Nat → ModelDecision) (skillLookup : String → Option Skill)
    (normalizeCommand : String → String) (exec : Nat → Int) (retryOnce : Bool)
    (max_turns : Nat) (X : String)
    (hmt : 2 ≤ max_turns) (hXne : X ≠ "") (hXtrim : pyStrip X = X)
    (hsel : ∀ n, (decisions n).selected_skill = some X)
    (hact : ∀ n, (decisions n).planned_actions ≠ [] ∧
      ∀ a ∈ (decisions n).planned_actions,
        a.type = "call_skill" ∧ alGet a.params "skill_name" = some (JValue.str X)) :
    ((runOrchestrator decisions skillLookup normalizeCommand exec retryOnce max_turns).1 =
        RunReason.success ∨
     (runOrchestrator decisions skillLookup normalizeCommand exec retryOnce max_turns).1 =
        RunReason.step_execution_failed) ∧
    (runOrchestrator decisions skillLookup normalizeCommand exec retryOnce
        max_turns).2.length = 2 ∧
    (∃ d2, (runOrchestrator decisions skillLookup normalizeCommand exec retryOnce
        max_turns).2.getLast? = some d2 ∧
      ∃ a ∈ d2.planned_actions, a.type ≠ "call_skill") := by
  obtain ⟨f, hf⟩ : ∃ f, max_turns = f + 1 + 1 := ⟨max_turns - 2, by omega⟩
  subst hf
  rw [runOrchestrator, runDecisionLoop_succ]
  dsimp only
  have hE1 : (decisions 1).planned_actions.isEmpty = false := by
    cases hp : (decisions 1).planned_actions with
    | nil => exact absurd hp (hact 1).1
    | cons a rest => rfl
  rw [hE1]
  rw [if_neg (show ¬(false = true) from by simp)]
  have hSH1 : _is_self_handoff_only (decisions 1).selected_skill
      (decisions 1).planned_actions = true := by
    rw [hsel 1]
    exact pure_self_handoff_detected X _ hXtrim hXne (hact 1).1 (hact 1).2
  rw [hSH1]
  rw [if_neg (show ¬((true : Bool) = true ∧ 0 ≥ 1) from by simp)]
  rw [exec_call_skill_all exec retryOnce X hXtrim hXne _ 0 false (hact 1).2]
  rw [hSH1]
  dsimp only
  rw [if_pos (rfl : (true : Bool) = true)]
  rw [if_neg (show ¬(0 + 1 ≥ 2) from by omega)]
  rw [if_neg (show ¬(false = true) from by simp)]
  rw [map_success_any_failed]
  rw [if_neg (show ¬(false = true) from by simp)]
  rw [runDecisionLoop_succ]
  dsimp only
  have hE2 : (decisions 2).planned_actions.isEmpty = false := by
    cases hp : (decisions 2).planned_actions with
    | nil => exact absurd hp (hact 2).1
    | cons a rest => rfl
  rw [hE2]
  rw [if_neg (show ¬(false = true) from by simp)]
  have hSH2 : _is_self_handoff_only (decisions 2).selected_skill
      (decisions 2).planned_actions = true := by
    rw [hsel 2]
    exact pure_self_handoff_detected X _ hXtrim hXne (hact 2).1 (hact 2).2
  rw [hSH2]
  rw [if_pos (show (true : Bool) = true ∧ 0 + 1 ≥ 1 from ⟨rfl, by omega⟩)]
  dsimp only
  obtain ⟨runs, hre, hrt⟩ := recovery_split normalizeCommand
    (match (decisions 2).selected_skill with
     | some s => if s ≠ "" then skillLookup s else none
     | none => none)
  rw [hre]
  rw [recovery_not_self_handoff]
  rw [if_neg (show ¬(false = true) from by simp)]
  rw [if_neg (show ¬((0 : Nat) ≥ 2) from by omega)]
  have hdisj := exec_runs_then_finish exec retryOnce runs 0 hrt
  by_cases hfin : (executeActions exec retryOnce
      (runs ++ [recoveryFinishStep]) 0 false).2.1 = true
  · rw [hfin, if_pos (rfl : (true : Bool) = true)]
    refine ⟨Or.inl rfl, rfl, ?_⟩
    refine ⟨_, rfl, recoveryFinishStep, by simp, by decide⟩
  · have hff : (executeActions exec retryOnce
        (runs ++ [recoveryFinishStep]) 0 false).2.1 = false := by
      cases hb : (executeActions exec retryOnce
          (runs ++ [recoveryFinishStep]) 0 false).2.1
      · rfl
      · exact absurd hb hfin
    have hfail := hdisj.resolve_left hfin
    rw [hff]
    rw [if_neg (show ¬(false = true) from by simp)]
    rw [hfail, if_pos (rfl : (true : Bool) = true)]
    refine ⟨Or.inr rfl, rfl, ?_⟩
    refine ⟨_, rfl, recoveryFinishStep, by simp, by decide⟩

/-- C2 witness: the concrete always-self-handoff model against an empty
registry, zero exit codes and `max_turns = 2`. -/
theorem C2_self_handoff_recovery_terminates_witness :
    ((runOrchestrator (fun _ => selfHandoffDecision) (fun _ => none) id
        (fun _ => 0) false 2).1 = RunReason.success ∨
     (runOrchestrator (fun _ => selfHandoffDecision) (fun _ => none) id
        (fun _ => 0) false 2).1 = RunReason.step_execution_failed) ∧
    (runOrchestrator (fun _ => selfHandoffDecision) (fun _ => none) id
        (fun _ => 0) false 2).2.length = 2 ∧
    (∃ d2, (runOrchestrator (fun _ => selfHandoffDecision) (fun _ => none) id
        (fun _ => 0) false 2).2.getLast? = some d2 ∧
      ∃ a ∈ d2.planned_actions, a.type ≠ "call_skill") :=
  C2_self_handoff_recovery_terminates (fun _ => selfHandoffDecision) (fun _ => none) id
    (fun _ => 0) false 2 "x" (by norm_num) (by decide) (by decide)
    (fun _ => rfl)
    (fun _ => ⟨List.cons_ne_nil _ _, fun a ha => by
      have ha' : a ∈ [ActionStep.mk "call_skill" [("skill_name", .str "x")] none] := ha
      rw [List.mem_singleton] at ha'
      subst ha'
      exact ⟨rfl, rfl⟩⟩)

/-! Mutation-stability of the decoder: rerunning the normalization on the
step as mutated by the first run changes nothing. -/

theorem dGet_alSet_params_ne (step : Dict) (v : JValue) (k : String)
    (h : k ≠ "params") : dGet (alSet step "params" v) k = dGet step k := by
  rw [dGet, dGet, alGet_alSet_ne _ _ _ _ (fun e => h e.symm)]

theorem stepRawType_alSet_params (step : Dict) (v : JValue) :
    stepRawType (alSet step "params" v) = stepRawType step := by
  unfold stepRawType
  rw [dGet_alSet_params_ne _ _ _ (by decide), dGet_alSet_params_ne _ _ _ (by decide),
    dGet_alSet_params_ne _ _ _ (by decide), dGet_alSet_params_ne _ _ _ (by decide)]

theorem inferStepType_alSet_params (step : Dict) (v : JValue) (p : Dict) :
    inferStepType (alSet step "params" v) p = inferStepType step p := by
  unfold inferStepType
  rw [dGet_alSet_params_ne _ _ _ (by decide), dGet_alSet_params_ne _ _ _ (by decide)]

theorem expectedOutputOf_alSet_params (step : Dict) (v : JValue) :
    expectedOutputOf (alSet step "params" v) = expectedOutputOf step := by
  unfold expectedOutputOf
  rw [alGet_alSet_ne _ _ _ _ (show ("params" : String) ≠ "expected_output" by decide),
    dGet_alSet_params_ne _ _ _ (by decide)]

theorem paramsOfStep_alSet_params (step : Dict) (pf : Dict) :
    paramsOfStep (alSet step "params" (.obj pf)) = (true, pf) := by
  unfold paramsOfStep
  rw [alGet_alSet_self]

theorem applyCommands_alSet_params (step : Dict) (v : JValue) (p : Dict) :
    applyCommands (alSet step "params" v) p = applyCommands step p := by
  unfold applyCommands
  rw [dGet_alSet_params_ne _ _ _ (by decide), dGet_alSet_params_ne _ _ _ (by decide),
    dGet_alSet_params_ne _ _ _ (by decide)]

theorem alHas_applySkillName (v : JValue) (p : Dict) :
    alHas (applySkillName v p) "skill_name" = (alHas p "skill_name" || truthy v) := by
  unfold applySkillName
  by_cases ht : truthy v <;> by_cases hh : alHas p "skill_name" <;>
    simp [ht, hh, alHas_alSet_self]

theorem alHas_applySkillName_ne (v : JValue) (p : Dict) (k : String)
    (h : k ≠ "skill_name") : alHas (applySkillName v p) k = alHas p k := by
  unfold applySkillName
  by_cases hc : truthy v && !alHas p "skill_name"
  · rw [if_pos hc, alHas_alSet]
    simp [Ne.symm h]
  · rw [if_neg hc]

theorem applySkillName_of_has (v : JValue) (p : Dict)
    (h : alHas p "skill_name" = true) : applySkillName v p = p := by
  unfold applySkillName
  rw [h]
  simp

theorem applySkillName_of_not_truthy (v : JValue) (p : Dict)
    (h : truthy v = false) : applySkillName v p = p := by
  unfold applySkillName
  rw [h]
  simp

theorem addCommand_of_has (v : JValue) (p : Dict)
    (h : alHas p "command" = true) : addCommand v p = p := by
  unfold addCommand
  rw [h]
  simp

theorem addCommand_of_not_qual (v : JValue) (p : Dict)
    (h : isQualCmd v = false) : addCommand v p = p := by
  unfold addCommand
  rw [h]
  simp

theorem alHas_addCommand (v : JValue) (p : Dict) :
    alHas (addCommand v p) "command" = (alHas p "command" || isQualCmd v) := by
  unfold addCommand
  by_cases hq : isQualCmd v <;> by_cases hh : alHas p "command" <;>
    simp [hq, hh, alHas_alSet_self]

theorem alHas_addCommand_ne (v : JValue) (p : Dict) (k : String)
    (h : k ≠ "command") : alHas (addCommand v p) k = alHas p k := by
  unfold addCommand
  by_cases hc : isQualCmd v && !alHas p "command"
  · rw [if_pos hc, alHas_alSet]
    simp [Ne.symm h]
  · rw [if_neg hc]

theorem alHas_applyCommands (step : Dict) (p : Dict) :
    alHas (applyCommands step p) "command" =
      (alHas p "command" || isQualCmd (dGet step "command") ||
        isQualCmd (dGet step "cmd") || isQualCmd (dGet step "shell_command")) := by
  unfold applyCommands
  rw [alHas_addCommand, alHas_addCommand, alHas_addCommand]

theorem alHas_applyCommands_ne (step : Dict) (p : Dict) (k : String)
    (h : k ≠ "command") : alHas (applyCommands step p) k = alHas p k := by
  unfold applyCommands
  rw [alHas_addCommand_ne _ _ _ h, alHas_addCommand_ne _ _ _ h, alHas_addCommand_ne _ _ _ h]

theorem applyCommands_of_has (step : Dict) (p : Dict)
    (h : alHas p "command" = true) : applyCommands step p = p := by
  unfold applyCommands
  rw [addCommand_of_has _ _ h, addCommand_of_has _ _ h, addCommand_of_has _ _ h]

theorem applyCommands_of_not_qual (step : Dict) (p : Dict)
    (h1 : isQualCmd (dGet step "command") = false)
    (h2 : isQualCmd (dGet step "cmd") = false)
    (h3 : isQualCmd (dGet step "shell_command") = false) :
    applyCommands step p = p := by
  unfold applyCommands
  rw [addCommand_of_not_qual _ _ h1, addCommand_of_not_qual _ _ h2,
    addCommand_of_not_qual _ _ h3]

/-- Case analysis on what `normActionOut` leaves behind in the step: either
the pipeline output itself, or that dictionary with the selected skill
written under `skill_name` (the only caller-visible write of the branch). -/
theorem normActionOut_snd (sel : Option String)
    (dft : List (String × List (String × Dict))) (raw nt : String)
    (p2 : Dict) (expv : JValue) :
    (normActionOut sel dft raw nt p2 expv).2 = p2 ∨
    (nt = "call_skill" ∧ truthy (dGet p2 "skill_name") = false ∧
     selectedTruthy sel = true ∧
     (normActionOut sel dft raw nt p2 expv).2 =
       alSet p2 "skill_name" (.str (sel.getD "")) ∧
     (normActionOut sel dft raw nt p2 expv).1 =
       NormStep.mk "call_skill" (alSet p2 "skill_name" (.str (sel.getD ""))) expv) := by
  unfold normActionOut
  by_cases h1 : nt = "call_skill"
  · rw [if_pos h1]
    by_cases h2 : (!truthy (dGet p2 "skill_name") && selectedTruthy sel) = true
    · rw [if_pos h2]
      right
      rw [Bool.and_eq_true, Bool.not_eq_true'] at h2
      exact ⟨h1, h2.1, h2.2, rfl, rfl⟩
    · rw [if_neg h2]
      left
      rfl
  · rw [if_neg h1]
    dsimp only
    split_ifs <;> left <;> rfl

/-- Rerunning the parameter pipeline on the dictionary `normActionOut` left
behind is the identity. -/
theorem normActionParams2_stable (step : Dict) (pf : Dict)
    (hsk : alHas (stepParams2 step) "skill_name" = true → alHas pf "skill_name" = true)
    (hcmd : alHas (stepParams2 step) "command" = true → alHas pf "command" = true) :
    normActionParams2 step pf = pf := by
  unfold normActionParams2
  have hskn : applySkillName (dGet step "skill_name") pf = pf := by
    cases ht : truthy (dGet step "skill_name") with
    | false => exact applySkillName_of_not_truthy _ _ ht
    | true =>
      refine applySkillName_of_has _ _ (hsk ?_)
      unfold stepParams2 normActionParams2
      rw [alHas_applyCommands_ne _ _ _ (by decide), alHas_applySkillName, ht]
      simp
  rw [hskn]
  cases hc : alHas (stepParams2 step) "command" with
  | true => exact applyCommands_of_has _ _ (hcmd hc)
  | false =>
    unfold stepParams2 normActionParams2 at hc
    rw [alHas_applyCommands] at hc
    simp only [Bool.or_eq_false_iff] at hc
    exact applyCommands_of_not_qual _ _ hc.1.1.2 hc.1.2 hc.2

theorem normActionParams2_alSet_params (step : Dict) (v : JValue) (p : Dict) :
    normActionParams2 (alSet step "params" v) p = normActionParams2 step p := by
  unfold normActionParams2
  rw [dGet_alSet_params_ne _ _ _ (by decide), applyCommands_alSet_params]

theorem inferStepType_call_skill_inv (step : Dict) (p : Dict)
    (h : inferStepType step p = "call_skill") :
    alHas p "command" = false ∧ alHas p "skill_name" = true := by
  unfold inferStepType at h
  split_ifs at h with h1 h2 h3
  · exact absurd h (by decide)
  · exact ⟨by simpa using h1, by simpa using h2⟩
  · exact absurd h (by decide)
  · exact absurd h (by decide)

theorem stepParams2_of_mut (sel : Option String)
    (al : List (String × List (String × String)))
    (dft : List (String × List (String × Dict))) (step : Dict) :
    stepParams2 (alSet step "params" (.obj (normStepOut sel al dft step).2)) =
      (normStepOut sel al dft step).2 := by
  have hunf : (normStepOut sel al dft step).2 =
      (normActionOut sel dft (stepRawType step) (stepNT sel al step) (stepParams2 step)
        (expectedOutputOf step)).2 := rfl
  unfold stepParams2
  rw [paramsOfStep_alSet_params]
  dsimp only
  rw [normActionParams2_alSet_params]
  refine normActionParams2_stable step _ ?_ ?_
  · intro hsk
    rcases normActionOut_snd sel dft (stepRawType step) (stepNT sel al step)
        (stepParams2 step) (expectedOutputOf step) with hL | ⟨_, _, _, hpf, _⟩
    · rw [hunf, hL]
      exact hsk
    · rw [hunf, hpf]
      exact alHas_alSet_self _ _ _
  · intro hcmd
    rcases normActionOut_snd sel dft (stepRawType step) (stepNT sel al step)
        (stepParams2 step) (expectedOutputOf step) with hL | ⟨_, _, _, hpf, _⟩
    · rw [hunf, hL]
      exact hcmd
    · rw [hunf, hpf, alHas_alSet]
      simp [hcmd]

theorem stepNT_of_mut (sel : Option String)
    (al : List (String × List (String × String)))
    (dft : List (String × List (String × Dict))) (step : Dict) :
    stepNT sel al (alSet step "params" (.obj (normStepOut sel al dft step).2)) =
      stepNT sel al step := by
  have hunf : (normStepOut sel al dft step).2 =
      (normActionOut sel dft (stepRawType step) (stepNT sel al step) (stepParams2 step)
        (expectedOutputOf step)).2 := rfl
  unfold stepNT
  rw [stepRawType_alSet_params]
  by_cases hres : _resolve_action_type (stepRawType step) sel al ≠ ""
  · rw [if_pos hres, if_pos hres]
  · rw [if_neg hres, if_neg hres]
    rw [inferStepType_alSet_params, stepParams2_of_mut]
    rcases normActionOut_snd sel dft (stepRawType step) (stepNT sel al step)
        (stepParams2 step) (expectedOutputOf step) with hL | ⟨hnt, _, _, hpf, _⟩
    · rw [hunf, hL]
    · have hcall : inferStepType step (stepParams2 step) = "call_skill" := by
        have hx : stepNT sel al step = "call_skill" := hnt
        unfold stepNT at hx
        rw [if_neg hres] at hx
        exact hx
      obtain ⟨hc, _⟩ := inferStepType_call_skill_inv step _ hcall
      rw [hunf, hpf, hcall]
      unfold inferStepType
      rw [alHas_alSet, hc]
      rw [if_neg (by simp)]
      rw [alHas_alSet_self]
      rw [if_pos rfl]

theorem normStepOut_mut (sel : Option String)
    (al : List (String × List (String × String)))
    (dft : List (String × List (String × Dict))) (step : Dict) :
    normStepOut sel al dft (alSet step "params" (.obj (normStepOut sel al dft step).2)) =
      ((normStepOut sel al dft step).1, (normStepOut sel al dft step).2) := by
  have hunf : (normStepOut sel al dft step).2 =
      (normActionOut sel dft (stepRawType step) (stepNT sel al step) (stepParams2 step)
        (expectedOutputOf step)).2 := rfl
  have hstep' : normStepOut sel al dft
      (alSet step "params" (.obj (normStepOut sel al dft step).2)) =
      normActionOut sel dft (stepRawType step) (stepNT sel al step)
        ((normStepOut sel al dft step).2) (expectedOutputOf step) := by
    show normActionOut sel dft
        (stepRawType (alSet step "params" (.obj (normStepOut sel al dft step).2)))
        (stepNT sel al (alSet step "params" (.obj (normStepOut sel al dft step).2)))
        (stepParams2 (alSet step "params" (.obj (normStepOut sel al dft step).2)))
        (expectedOutputOf (alSet step "params" (.obj (normStepOut sel al dft step).2))) =
      normActionOut sel dft (stepRawType step) (stepNT sel al step)
        ((normStepOut sel al dft step).2) (expectedOutputOf step)
    rw [stepRawType_alSet_params, stepNT_of_mut, stepParams2_of_mut,
      expectedOutputOf_alSet_params]
  rw [hstep']
  rcases normActionOut_snd sel dft (stepRawType step) (stepNT sel al step)
      (stepParams2 step) (expectedOutputOf step) with hL | ⟨hnt, htr, hselT, hpf, hfst⟩
  · have hY : normStepOut sel al dft step =
        normActionOut sel dft (stepRawType step) (stepNT sel al step) (stepParams2 step)
          (expectedOutputOf step) := rfl
    have hP : (normStepOut sel al dft step).2 = stepParams2 step := hunf.trans hL
    rw [hP, ← hY, ← hP]
  · obtain ⟨s0, hs0⟩ : ∃ s0, sel = some s0 := by
      cases hsel0 : sel with
      | none => rw [hsel0] at hselT; exact absurd hselT (by simp [selectedTruthy])
      | some s => exact ⟨s, rfl⟩
    have hs0ne : s0 ≠ "" := by
      rw [hs0] at hselT
      simpa [selectedTruthy] using hselT
    have htru : truthy (dGet (alSet (stepParams2 step) "skill_name"
        (.str (sel.getD ""))) "skill_name") = true := by
      rw [dGet, alGet_alSet_self]
      rw [hs0]
      simpa [truthy] using hs0ne
    rw [hunf, hpf, hnt]
    have hfst' : (normStepOut sel al dft step).1 =
        NormStep.mk "call_skill" (alSet (stepParams2 step) "skill_name"
          (.str (sel.getD ""))) (expectedOutputOf step) := hfst
    rw [hfst']
    unfold normActionOut
    rw [if_pos rfl]
    rw [if_neg (by rw [htru]; simp)]

/-- Running `_normalize_action_step` a second time on the step as mutated
by a first run returns the same normalized step and mutates nothing
further. -/
theorem normalize_step_stable (sel : Option String)
    (al : List (String × List (String × String)))
    (dft : List (String × List (String × Dict))) (step : Dict) :
    _normalize_action_step sel al dft ((_normalize_action_step sel al dft step).2) =
      _normalize_action_step sel al dft step := by
  by_cases hw : (paramsOfStep step).1 = true
  · have h2 : (_normalize_action_step sel al dft step).2 =
        alSet step "params" (.obj (normStepOut sel al dft step).2) := by
      unfold _normalize_action_step
      dsimp only
      rw [if_pos hw]
    rw [h2]
    unfold _normalize_action_step
    dsimp only
    rw [paramsOfStep_alSet_params]
    dsimp only
    rw [normStepOut_mut]
    dsimp only
    rw [if_pos rfl, if_pos hw, alSet_alSet_self]
  · have h2 : (_normalize_action_step sel al dft step).2 = step := by
      unfold _normalize_action_step
      dsimp only
      rw [if_neg hw]
    rw [h2]

theorem normalizeSteps_stable (f : Dict → NormStep × Dict)
    (hf : ∀ s, f ((f s).2) = f s) :
    ∀ xs : List JValue, normalizeSteps f (normalizeSteps f xs).2 = normalizeSteps f xs := by
  intro xs
  induction xs with
  | nil => rfl
  | cons v rest ih =>
    cases v with
    | obj fs =>
      show normalizeSteps f (JValue.obj (f fs).2 :: (normalizeSteps f rest).2) = _
      simp only [normalizeSteps]
      rw [hf fs, ih]
    | null =>
      show normalizeSteps f (JValue.null :: (normalizeSteps f rest).2) = _
      simp only [normalizeSteps]
      rw [ih]
    | bool b =>
      show normalizeSteps f (JValue.bool b :: (normalizeSteps f rest).2) = _
      simp only [normalizeSteps]
      rw [ih]
    | num n =>
      show normalizeSteps f (JValue.num n :: (normalizeSteps f rest).2) = _
      simp only [normalizeSteps]
      rw [ih]
    | str s =>
      show normalizeSteps f (JValue.str s :: (normalizeSteps f rest).2) = _
      simp only [normalizeSteps]
      rw [ih]
    | arr elems =>
      show normalizeSteps f (JValue.arr elems :: (normalizeSteps f rest).2) = _
      simp only [normalizeSteps]
      rw [ih]

theorem dGet_alSet_ne (d : Dict) (k k' : String) (v : JValue) (h : k ≠ k') :
    dGet (alSet d k v) k' = dGet d k' := by
  rw [dGet, dGet, alGet_alSet_ne _ _ _ _ h]

theorem alSet_comm_of_has {β : Type} (d : List (String × β)) (k k' : String) (v w : β)
    (hne : k ≠ k') (hk : alHas d k = true) :
    alSet (alSet d k v) k' w = alSet (alSet d k' w) k v := by
  induction d with
  | nil => rw [alHas, alGet] at hk; simp at hk
  | cons hd tl ih =>
    by_cases h0 : hd.1 = k
    · have h0' : ¬hd.1 = k' := fun e => hne ((h0.symm.trans e))
      simp [alSet, h0, h0', hne, fun e : k' = k => hne e.symm]
    · by_cases h1 : hd.1 = k'
      · have hkk : ¬(k' = k) := fun e => hne e.symm
        simp [alSet, h0, h1, if_neg hkk]
      · have hk' : alHas tl k = true := by
          rw [alHas, alGet, if_neg h0] at hk
          exact hk
        simp [alSet, h0, h1, ih hk']

theorem alHas_condSetDefault_ne (d : Dict) (k k' : String) (v : JValue)
    (h : k ≠ k') : alHas (condSetDefault d k' v) k = alHas d k := by
  unfold condSetDefault
  by_cases hc : alHas d k'
  · rw [if_pos hc]
  · have hkk : (decide (k' = k)) = false := decide_eq_false (fun e => h e.symm)
    rw [if_neg hc, alHas_alSet, hkk, Bool.or_false]

theorem condSetDefault_alSet_comm (d : Dict) (k k' : String) (v' m : JValue)
    (hne : k ≠ k') (hk : alHas d k = true) :
    condSetDefault (alSet d k m) k' v' = alSet (condSetDefault d k' v') k m := by
  unfold condSetDefault
  rw [alHas_alSet]
  have : decide (k = k') = false := by simp [hne]
  rw [this, Bool.or_false]
  by_cases hc : alHas d k'
  · rw [if_pos hc, if_pos hc]
  · rw [if_neg hc, if_neg hc]
    exact alSet_comm_of_has d k k' m v' hne hk

theorem repairAddDefaults_alSet (p : Dict) (m : JValue)
    (hpa : alHas p "planned_actions" = true) :
    repairAddDefaults (alSet p "planned_actions" m) =
      alSet (repairAddDefaults p) "planned_actions" m := by
  unfold repairAddDefaults
  rw [show condSetDefault (alSet p "planned_actions" m) "planned_actions"
      (.arr [finishStepJ]) = alSet p "planned_actions" m from by
    unfold condSetDefault
    rw [if_pos (alHas_alSet_self p "planned_actions" m)]]
  rw [show condSetDefault p "planned_actions" (.arr [finishStepJ]) = p from by
    unfold condSetDefault
    rw [if_pos hpa]]
  rw [condSetDefault_alSet_comm _ _ _ _ _ (by decide) hpa]
  rw [condSetDefault_alSet_comm _ _ _ _ _ (by decide)
    (by rw [alHas_condSetDefault_ne _ _ _ _ (by decide)]; exact hpa)]

theorem repairSelected_alSet (r : Dict) (m : JValue)
    (hpa : alHas r "planned_actions" = true) :
    repairSelected (alSet r "planned_actions" m) =
      ((repairSelected r).1, alSet (repairSelected r).2 "planned_actions" m) := by
  unfold repairSelected
  rw [dGet_alSet_ne _ _ _ _ (by decide)]
  cases hv : dGet r "selected_skill" with
  | null => rfl
  | bool b =>
    dsimp only
    rw [alSet_comm_of_has _ _ _ _ _ (by decide) hpa]
  | num n =>
    dsimp only
    rw [alSet_comm_of_has _ _ _ _ _ (by decide) hpa]
  | str s =>
    dsimp only
    rw [alSet_comm_of_has _ _ _ _ _ (by decide) hpa]
  | arr xs =>
    dsimp only
    rw [alSet_comm_of_has _ _ _ _ _ (by decide) hpa]
  | obj fs =>
    dsimp only
    rw [alSet_comm_of_has _ _ _ _ _ (by decide) hpa]

/-- When the payload's `planned_actions` value is not a list (or it lacks
the key), the caller's payload is untouched by the repair. -/
theorem repair_snd_id (p : Dict)
    (al : List (String × List (String × String)))
    (dft : List (String × List (String × Dict)))
    (h : alHas p "planned_actions" = false ∨
      ∀ steps, dGet (repairSelected (repairAddDefaults p)).2 "planned_actions" ≠
        .arr steps) :
    (_repair_payload p al dft).2 = p := by
  unfold _repair_payload
  dsimp only
  cases hv : dGet (repairSelected (repairAddDefaults p)).2 "planned_actions" with
  | arr steps =>
    rcases h with hno | hne
    · dsimp only
      rw [hno]
      simp
    · exact absurd hv (hne steps)
  | null => rfl
  | bool b => rfl
  | num n => rfl
  | str s => rfl
  | obj fs => rfl

/-- Running `_repair_payload` a second time on the payload as mutated by a
first run yields the same repaired payload and the same mutated payload. -/
theorem repair_stable (p : Dict)
    (al : List (String × List (String × String)))
    (dft : List (String × List (String × Dict))) :
    _repair_payload ((_repair_payload p al dft).2) al dft = _repair_payload p al dft := by
  by_cases hpa : alHas p "planned_actions" = true
  · cases hv : dGet (repairSelected (repairAddDefaults p)).2 "planned_actions" with
    | arr steps =>
      have hsnd : (_repair_payload p al dft).2 = alSet p "planned_actions"
          (.arr (normalizeSteps (_normalize_action_step
            (repairSelected (repairAddDefaults p)).1
            (_normalize_skill_aliases al) (_normalize_default_action_params dft))
            steps).2) := by
        unfold _repair_payload
        dsimp only
        rw [hv]
        dsimp only
        rw [if_pos hpa]
      rw [hsnd]
      have hR3 := repairAddDefaults_alSet p
        (.arr (normalizeSteps (_normalize_action_step
          (repairSelected (repairAddDefaults p)).1
          (_normalize_skill_aliases al) (_normalize_default_action_params dft)) steps).2)
        hpa
      have hpaR : alHas (repairAddDefaults p) "planned_actions" = true := by
        rw [alHas, alGet_repairAddDefaults_planned]
        rfl
      have hR4 := repairSelected_alSet (repairAddDefaults p)
        (.arr (normalizeSteps (_normalize_action_step
          (repairSelected (repairAddDefaults p)).1
          (_normalize_skill_aliases al) (_normalize_default_action_params dft)) steps).2)
        hpaR
      have hns := normalizeSteps_stable
        (_normalize_action_step (repairSelected (repairAddDefaults p)).1
          (_normalize_skill_aliases al) (_normalize_default_action_params dft))
        (normalize_step_stable _ _ _) steps
      unfold _repair_payload
      dsimp only
      rw [hR3, hR4]
      dsimp only
      rw [show ∀ d : Dict, ∀ k v, dGet (alSet d k v) k = v from fun d k v => by
        simp [dGet, alGet_alSet_self]]
      dsimp only
      rw [hns]
      rw [alSet_alSet_self]
      rw [alHas_alSet_self]
      rw [if_pos rfl, alSet_alSet_self]
      rw [hv]
      dsimp only
      rw [if_pos hpa]
    | null =>
      rw [repair_snd_id p al dft (Or.inr (by rw [hv]; intro _ h; cases h))]
    | bool b =>
      rw [repair_snd_id p al dft (Or.inr (by rw [hv]; intro _ h; cases h))]
    | num n =>
      rw [repair_snd_id p al dft (Or.inr (by rw [hv]; intro _ h; cases h))]
    | str s =>
      rw [repair_snd_id p al dft (Or.inr (by rw [hv]; intro _ h; cases h))]
    | obj fs =>
      rw [repair_snd_id p al dft (Or.inr (by rw [hv]; intro _ h; cases h))]
  · rw [repair_snd_id p al dft (Or.inl (by simpa using hpa))]

/-- C9: decoding is idempotent — a second `decode_model_decision` call on
the payload as left behind by a successful first call (the decoder may have
written into the payload's step parameter dictionaries) succeeds and
returns the structurally identical decision, leaving the payload unchanged. -/
theorem C9_decode_idempotent (p : Dict)
    (al : List (String × List (String × String)))
    (dft : List (String × List (String × Dict))) (d : ModelDecision) (q : Dict)
    (h : decode_model_decision p al dft = .ok (d, q)) :
    decode_model_decision q al dft = .ok (d, q) := by
  obtain ⟨hval, hq⟩ := decode_ok_inv p al dft d q h
  have hst := repair_stable p al dft
  rw [hq] at hst
  unfold decode_model_decision
  dsimp only
  rw [hst, hval]
  dsimp only
  rw [hq]

/-- C9 witness: a concrete successful decode, fed back into the decoder. -/
theorem C9_decode_idempotent_witness :
    decode_model_decision plainPayload [] [] =
      .ok (ModelDecision.mk none "r" [] [ActionStep.mk "finish" [] none], plainPayload) ∧
    decode_model_decision plainPayload [] [] =
      .ok (ModelDecision.mk none "r" [] [ActionStep.mk "finish" [] none], plainPayload) :=
  ⟨rfl, C9_decode_idempotent plainPayload [] []
    (ModelDecision.mk none "r" [] [ActionStep.mk "finish" [] none]) plainPayload rfl⟩

end Agent
